import Mathlib

/-!
# ZVS-Sim: the switch resistance, the integration loop and the retry loop

A shallow embedding of `zvssim.cpp`.  The `long double` quantities of the program are
elements of an arbitrary linearly ordered field `α` with a floor function (exact
arithmetic); the rationals make every definition executable and the reals are covered by
the same theorems.  Two things follow.  The rounding of the arithmetic operations is not
represented; the two literals of the source that are not exactly representable, `100e-9`
and `0.01e-9`, are given the exact values of the `double`s they denote.  And a division by
zero gives 0 in the field where the program gets an infinity or a NaN, so the definitions
follow the program only where the denominators (`L1 + L2`, `L2`, `L4`, `C`, `T`, `p1`,
`p3 - p2`, `t_total/delta_t`) are nonzero; the theorems that depend on it say so in their
hypotheses.  The three functions of the C math library that cannot be expressed in
such a field (`sqrt`, the constant `M_PI`, `isfinite`) are collected in `Libm` and passed
as a parameter.  Console output of `simulate` (progress percentage, "Start recording
data.") is not part of the model; the messages of `main`, the five sample files and
`parameters.dat` are.
-/

namespace ZVS

variable {α : Type} [LinearOrderedField α]

/-! ## C math library -/

/-- The functions of `<cmath>` used by the program that are not field operations. -/
structure Libm (α : Type) where
  sqrt : α → α
  M_PI : α
  isfinite : α → Bool

/-- The value returned by `modf(x, &int_part)`: the fractional part of `x`, carrying the
sign of `x` (the integral part is obtained by truncation toward zero). -/
def modf [FloorRing α] (x : α) : α := if 0 ≤ x then x - ⌊x⌋ else x - ⌈x⌉

/-! ## class classR (lines 73-102) -/

/-- The data members of `classR`. -/
structure classR (α : Type) where
  p1 : α
  p2 : α
  p3 : α
  p4 : α
  T : α
  max_value : α
deriving DecidableEq

/-- The method `classR::configure(T_, slope_, value_)` (lines 78-90). -/
def classR.configure (T_ slope_ value_ : α) : classR α :=
  let slope_ := slope_ / 100.0
  { p1 := T_ * slope_
    p2 := T_ / 2.0 - T_ * slope_ / 2.0
    p3 := T_ / 2.0 + T_ * slope_ / 2.0
    p4 := T_
    T := T_
    max_value := value_ }

/-- The reduced time computed in the first statement of `classR::value` (line 95). -/
def classR.reduce [FloorRing α] (r : classR α) (t : α) : α := 1.0 * r.T * modf (1.0 * t / r.T)

/-- The method `classR::value(t)` (lines 92-101): the cascade of `if ... return`.  The
divisions are those of the field: the definition follows the program when `T`, `p1` and
`p3 - p2` are nonzero. -/
def classR.value [FloorRing α] (r : classR α) (t : α) : α :=
  let t := r.reduce t
  if t ≤ r.p1 then r.max_value * t / r.p1
  else if t > r.p1 ∧ t ≤ r.p2 then r.max_value
  else if t > r.p2 ∧ t ≤ r.p3 then r.max_value * (1.0 - ((t - r.p2) / (r.p3 - r.p2)))
  else if t > r.p3 then 0
  else 0

/-! ## class zvs (lines 104-269) -/

/-- The data members of `zvs`. -/
structure zvs (α : Type) where
  L1 : α
  L2 : α
  V : α
  C : α
  L4 : α
  delta_t : α
  t_total : α
  slope_R : α
  T : α
  f : α
  R : α
  R_Sec : α
  last_perc : α
  resist : classR α
deriving DecidableEq

/-- The method `zvs::configure` (lines 109-136). -/
def zvs.configure (m : Libm α)
    (L1_ L2_ L4_ C_ V_ R_ delta_t_ t_total_ slope_ R_Sec_ last_perc_ : α) : zvs α :=
  let T := 2.0 * m.M_PI * m.sqrt (4.0 * L2_ * C_)
  { L1 := L1_
    L2 := L2_
    L4 := L4_
    C := C_
    V := V_
    R := R_
    delta_t := delta_t_
    t_total := t_total_
    slope_R := slope_
    T := T
    f := 1.0 / T
    R_Sec := R_Sec_
    resist := classR.configure T slope_ R_
    last_perc := last_perc_ }

/-- The method `zvs::save_parameters` (lines 138-153): the lines written to
`parameters.dat`, in order, each a label and the value that follows it. -/
def zvs.save_parameters (c : zvs α) : List (String × α) :=
  [("L1:                    ", c.L1),
   ("L2:                    ", c.L2),
   ("L4:                    ", c.L4),
   ("V:                     ", c.V),
   ("C:                     ", c.C),
   ("Time step:             ", c.delta_t),
   ("Total simulation time: ", c.t_total),
   ("Resistor slope:        ", c.slope_R),
   ("Max resistance:        ", c.R),
   ("Secondary load:        ", c.R_Sec)]

/-- The method `zvs::read_parameters` (lines 231-268), with the eleven numbers read from the
console as arguments, in the order in which they are asked for. -/
def zvs.read_parameters (m : Libm α)
    (L1_input L2_input L4_input V_input C_input delta_t_input t_total_input
      slopeR_input R_input R_Sec_input last_points : α) : zvs α :=
  zvs.configure m L1_input L2_input L4_input C_input V_input R_input delta_t_input
    t_total_input slopeR_input R_Sec_input
    (100.0 * last_points / (t_total_input / delta_t_input))

/-- The local variables of `zvs::simulate` that live across loop iterations (lines 170-177)
and the contents of the five output files, oldest line first. -/
structure SimState (α : Type) where
  I1 : α
  I2 : α
  I3 : α
  I4 : α
  I1d : α
  I2d : α
  I3d : α
  I4d : α
  I1da : α
  I2da : α
  I3da : α
  I4da : α
  int_I3 : α
  t : α
  recording : Bool
  convergence_error : Bool
  Vsec_dat : List (α × α)
  VC_dat : List (α × α)
  IL2_dat : List (α × α)
  ISource_dat : List (α × α)
  IC_dat : List (α × α)
deriving DecidableEq

/-- The state on entry to the loop of `zvs::simulate`: everything zero, the files empty. -/
def SimState.init : SimState α :=
  { I1 := 0, I2 := 0, I3 := 0, I4 := 0
    I1d := 0, I2d := 0, I3d := 0, I4d := 0
    I1da := 0, I2da := 0, I3da := 0, I4da := 0
    int_I3 := 0
    t := 0
    recording := false
    convergence_error := false
    Vsec_dat := [], VC_dat := [], IL2_dat := [], ISource_dat := [], IC_dat := [] }

/-- Lines 184-203 of `zvs::simulate`, "Beginning of algorithm" to "End of algorithm".  The
divisions are those of the field: the definition follows the program when `L1 + L2`, `L2`,
`L4` and `C` are nonzero. -/
def zvs.algorithm [FloorRing α] (m : Libm α) (c : zvs α) (s : SimState α) : SimState α :=
  let M24 := m.sqrt (c.L2 * c.L4)
  let R1 := c.resist.value s.t
  let R2 := c.R - R1
  let I1d := (c.V + c.L1 * s.I2d - c.L2 * s.I2d + 2.0 * c.L2 * s.I3d + M24 * s.I4d - R2 * s.I1)
    / (c.L1 + c.L2)
  let I1 := s.I1 + (I1d * c.delta_t + 0.5 * c.delta_t * (I1d - s.I1da))
  let I1da := I1d
  let I2d := -1.0 * (c.V + R1 * s.I2 + c.L2 * (I1d - 2.0 * s.I3d) - c.L1 * I1d - M24 * s.I4d)
    / (c.L2 + c.L1)
  let I2 := s.I2 + (I2d * c.delta_t + 0.5 * c.delta_t * (I2d - s.I2da))
  let I2da := I2d
  let I3d := -1.0 * (s.int_I3 / c.C - 2.0 * c.L2 * (I1d + I2d) + 2.0 * M24 * s.I4d)
    / (4.0 * c.L2)
  let I3 := s.I3 + (I3d * c.delta_t + 0.5 * c.delta_t * (I3d - s.I3da))
  let I3da := I3d
  let I4d := -1.0 * (c.R_Sec * s.I4 + M24 * (2.0 * I3d - I1d - I2d)) / c.L4
  let I4 := s.I4 + (I4d * c.delta_t + 0.5 * c.delta_t * (I4d - s.I4da))
  let I4da := I4d
  let int_I3 := s.int_I3 + I3 * c.delta_t
  { s with
    I1 := I1, I2 := I2, I3 := I3, I4 := I4
    I1d := I1d, I2d := I2d, I3d := I3d, I4d := I4d
    I1da := I1da, I2da := I2da, I3da := I3da, I4da := I4da
    int_I3 := int_I3 }

/-- Lines 206-215 of `zvs::simulate`: the recording of one line in each of the five files. -/
def zvs.record (c : zvs α) (s : SimState α) : SimState α :=
  if s.t > c.t_total * (1.0 - c.last_perc / 100.0) then
    { s with
      recording := true
      Vsec_dat := s.Vsec_dat ++ [(s.t, s.I4 * c.R_Sec)]
      VC_dat := s.VC_dat ++ [(s.t, s.int_I3 / c.C)]
      IL2_dat := s.IL2_dat ++ [(s.t, s.I3 - s.I2)]
      ISource_dat := s.ISource_dat ++ [(s.t, s.I1 - s.I2)]
      IC_dat := s.IC_dat ++ [(s.t, s.I3)] }
  else s

/-- The condition of the `if` of line 221. -/
def diverged (m : Libm α) (I1 : α) : Bool := !m.isfinite I1 || decide (|I1| > 1e10)

/-- One pass through the loop body up to the file output (lines 184-215): the algorithm, then
the recording. -/
def zvs.step [FloorRing α] (m : Libm α) (c : zvs α) (s : SimState α) : SimState α :=
  c.record (c.algorithm m s)

/-- The increment `t+=delta_t` of the `for` statement (line 181). -/
def zvs.next (c : zvs α) (s : SimState α) : SimState α :=
  { s with t := s.t + c.delta_t }

/-- The `for` loop of `zvs::simulate` (lines 181-227), entered with state `s`.  One unit of
fuel is used per evaluation of the loop condition; `none` means the fuel ran out.  The
list is a trace with one entry per executed step, in order: the state on entry to the step
and the state right after its file output; nothing is computed from it. -/
def zvs.simulate_loop [FloorRing α] (m : Libm α) (c : zvs α) :
    ℕ → SimState α → List (SimState α × SimState α) →
      Option (SimState α × List (SimState α × SimState α))
  | 0, _, _ => none
  | fuel + 1, s, trace =>
    if s.t < c.t_total then
      let s1 := c.step m s
      if diverged m s1.I1 then
        some ({ s1 with convergence_error := true }, trace ++ [(s, s1)])
      else
        zvs.simulate_loop m c fuel (c.next s1) (trace ++ [(s, s1)])
    else some (s, trace)

/-- The method `zvs::simulate` (lines 155-229): the final state of the local variables and
files, and the trace of the executed steps.  The value returned by the C++ method is the
field `convergence_error` of the final state. -/
def zvs.simulate [FloorRing α] (m : Libm α) (c : zvs α) (fuel : ℕ) :
    Option (SimState α × List (SimState α × SimState α)) :=
  zvs.simulate_loop m c fuel SimState.init []

/-- The state on entry to the step number `k` (counted from 0) of a loop entered with state
`s`, as long as no `break` was taken before. -/
def zvs.loop_head [FloorRing α] (m : Libm α) (c : zvs α) (s : SimState α) (k : ℕ) :
    SimState α :=
  (fun s => c.next (c.step m s))^[k] s

/-! ## main (lines 272-307) -/

/-- The messages `main` writes to the console inside its retry loop. -/
inductive Msg (α : Type) where
  | readjust_L1 (L1 : α)
  | readjust_L1_and_time_step (L1 delta_t : α)
  | could_not_be_solved
deriving DecidableEq

/-- The value of the literal `100e-9` of lines 289 and 294.  The literal is a `double`, so it
is the double nearest to `10^-7`, `0x1.ad7f29abcaf48p-24`: about `4.5e-24` below `10^-7`,
and below the `long double` nearest to `10^-7`. -/
def lit_100e_9 : α := 944473296573929 / 2 ^ 73

/-- The value of the literal `0.01e-9` of line 299: the double nearest to `10^-11`,
`0x1.5fd7fe1796495p-37`, about `6e-28` below `10^-11`. -/
def lit_0_01e_9 : α := 6189700196426901 / 2 ^ 89

/-- The three adjustments in the body of the `while` loop of `main` (lines 284-298), run
after an attempt that reported a convergence error: three `if` statements in sequence, each
testing the values left by the ones before it.  The result is the circuit after the
adjustments and the messages printed. -/
def main_adjust (c : zvs α) : zvs α × List (Msg α) :=
  let r1 : zvs α × List (Msg α) :=
    if c.L1 < 1.0 then
      ({ c with L1 := c.L1 * 2.0 }, [Msg.readjust_L1 (c.L1 * 2.0)])
    else (c, [])
  let r2 : zvs α × List (Msg α) :=
    if r1.1.L1 ≥ 1.0 ∧ r1.1.delta_t ≤ lit_100e_9 then
      ({ r1.1 with L1 := r1.1.L1 + 2.0 }, r1.2 ++ [Msg.readjust_L1 (r1.1.L1 + 2.0)])
    else r1
  if r2.1.L1 ≥ 1.0 ∧ r2.1.delta_t > lit_100e_9 then
    ({ r2.1 with delta_t := r2.1.delta_t / 2.0 },
      r2.2 ++ [Msg.readjust_L1_and_time_step r2.1.L1 (r2.1.delta_t / 2.0)])
  else r2

/-- The body of the `while` loop of `main` (lines 284-303): the adjustments, then the
give-up test of line 299.  The Boolean tells whether the `break` of line 302 is taken. -/
def main_retry (c : zvs α) : zvs α × List (Msg α) × Bool :=
  let r := main_adjust c
  if r.1.L1 > 20.0 ∧ r.1.delta_t < lit_0_01e_9 then
    (r.1, r.2 ++ [Msg.could_not_be_solved], true)
  else (r.1, r.2, false)

/-- The `while` loop of `main` (lines 282-304).  `simulate` stands for the call
`circuit1.simulate()` and tells whether the attempt on the given circuit reports a
convergence error.  The result is the circuit handed to `save_parameters` and all the
messages printed; `none` means the fuel (one unit per attempt) ran out. -/
def main_loop (simulate : zvs α → Bool) :
    ℕ → zvs α → List (Msg α) → Option (zvs α × List (Msg α))
  | 0, _, _ => none
  | fuel + 1, c, out =>
    if simulate c then
      let r := main_retry c
      if r.2.2 then some (r.1, out ++ r.2.1)
      else main_loop simulate fuel r.1 (out ++ r.2.1)
    else some (c, out)

/-! ## Concrete data for evaluating the definitions -/

/-- A rational stand-in for the math library: `sqrt` rounds the square root of a
non-negative rational down to a multiple of the reciprocal of its denominator. -/
def Libm.rat : Libm ℚ :=
  { sqrt := fun x => (Nat.sqrt (x.num.toNat * x.den) : ℚ) / x.den
    M_PI := 355 / 113
    isfinite := fun _ => true }

/-- A sample parameter set around the values the prompts of the program recommend
(`L2 = 1e-4`, `L4 = 1e-5`, `C = 1e-8`, `V = 12`, `t_total = 1e-4`, `slope_R = 0.0001`,
`R = 100e6`, `R_Sec = 50`, `last_perc = 1`), for a given `L1` and time step. -/
def scenario (L1 delta_t : ℚ) : zvs ℚ :=
  zvs.configure Libm.rat L1 1e-4 1e-5 1e-8 12 100e6 delta_t 1e-4 0.0001 50 1

/-- Closed form of the inductance after `n` retries from `L1 = 0.1` with a time step of at
most the literal `100e-9`: three doublings, a doubling followed by `+ 2.0`, then `+ 2.0` per retry. -/
def L1_after (n : ℕ) : α := if n ≤ 3 then 0.1 * 2 ^ n else 3.6 + 2.0 * ((n : α) - 4)

/-- All currents, all derivatives and the integral are zero. -/
def SimState.at_rest (s : SimState α) : Prop :=
  s.I1 = 0 ∧ s.I2 = 0 ∧ s.I3 = 0 ∧ s.I4 = 0 ∧
  s.I1d = 0 ∧ s.I2d = 0 ∧ s.I3d = 0 ∧ s.I4d = 0 ∧
  s.I1da = 0 ∧ s.I2da = 0 ∧ s.I3da = 0 ∧ s.I4da = 0 ∧ s.int_I3 = 0

/-- A small run for evaluating `simulate`: every component value 1, no source voltage, four
time steps of size 1, and the last 2 points asked for. -/
def small_run : zvs ℚ := zvs.read_parameters Libm.rat 1 1 1 0 1 1 4 1 1 1 2

/-- A run that diverges at once: as `small_run`, with a source voltage of `1e11`. -/
def hot_run : zvs ℚ := zvs.read_parameters Libm.rat 1 1 1 (10 ^ 11) 1 1 4 1 1 1 2

/-- The electrical state of `s'` is `k` times that of `s`, at the same loop time. -/
def SimState.scaled (k : α) (s s' : SimState α) : Prop :=
  s'.I1 = k * s.I1 ∧ s'.I2 = k * s.I2 ∧ s'.I3 = k * s.I3 ∧ s'.I4 = k * s.I4 ∧
  s'.I1d = k * s.I1d ∧ s'.I2d = k * s.I2d ∧ s'.I3d = k * s.I3d ∧ s'.I4d = k * s.I4d ∧
  s'.I1da = k * s.I1da ∧ s'.I2da = k * s.I2da ∧ s'.I3da = k * s.I3da ∧
  s'.I4da = k * s.I4da ∧ s'.int_I3 = k * s.int_I3 ∧ s'.t = s.t

/-- A run with unequal inductances for evaluating single steps: `L1 = 2`, `L2 = L4 = C = 1`,
`V = 3`, four time steps of size 1. -/
def uneven_run : zvs ℚ := zvs.read_parameters Libm.rat 2 1 1 3 1 1 4 1 1 1 2

/-- A run of a single step: every component value 1, `V = 3`, and a time step of 4 that
covers the whole of `t_total = 4`. -/
def one_step_run : zvs ℚ := zvs.read_parameters Libm.rat 1 1 1 3 1 4 4 1 1 1 1

/-- The `long double` nearest to `10^-7`: the value stored in `delta_t` when `100e-9` is
typed at the prompt for the time step.  It lies between the `double` literal `100e-9` and
`10^-7`. -/
def stored_100e_9 : ℚ := 3868562622766813359 / 2 ^ 85

/-- A run of three steps of which the last two are recorded: `L1 = 2`,
`L2 = L4 = C = R = 1`, `V = 3`, `R_Sec = 5`, time step 1 up to `t_total = 3`, and the last 3
points asked for, which makes `last_perc = 100` and puts the recording threshold at 0. -/
def recording_run : zvs ℚ := zvs.read_parameters Libm.rat 2 1 1 3 1 1 3 1 1 5 3

/-- The state of `recording_run` after the file output of its first step (loop time 0). -/
def recording_run_s1 : SimState ℚ :=
  { I1 := 3 / 2, I2 := -1, I3 := 1 / 4, I4 := 0
    I1d := 1, I2d := -2 / 3, I3d := 1 / 6, I4d := 0
    I1da := 1, I2da := -2 / 3, I3da := 1 / 6, I4da := 0
    int_I3 := 1 / 4
    t := 0
    recording := false
    convergence_error := false
    Vsec_dat := [], VC_dat := [], IL2_dat := [], ISource_dat := [], IC_dat := [] }

/-- The state of `recording_run` after the file output of its second step (loop time 1). -/
def recording_run_s2 : SimState ℚ :=
  { I1 := 7 / 3, I2 := -19 / 18, I3 := 157 / 288, I4 := 3 / 16
    I1d := 8 / 9, I2d := -7 / 27, I3d := 109 / 432, I4d := 1 / 8
    I1da := 8 / 9, I2da := -7 / 27, I3da := 109 / 432, I4da := 1 / 8
    int_I3 := 229 / 288
    t := 1
    recording := true
    convergence_error := false
    Vsec_dat := [(1, 15 / 16)], VC_dat := [(1, 229 / 288)], IL2_dat := [(1, 461 / 288)],
    ISource_dat := [(1, 61 / 18)], IC_dat := [(1, 157 / 288)] }

/-- The state of `recording_run` after the file output of its third step (loop time 2). -/
def recording_run_s3 : SimState ℚ :=
  { I1 := 193 / 54, I2 := -331 / 324, I3 := 17041 / 20736, I4 := -191 / 384
    I1d := 91 / 81, I2d := -31 / 486, I3d := 8353 / 31104, I4d := -239 / 576
    I1da := 91 / 81, I2da := -31 / 486, I3da := 8353 / 31104, I4da := -239 / 576
    int_I3 := 33529 / 20736
    t := 2
    recording := true
    convergence_error := false
    Vsec_dat := [(1, 15 / 16), (2, -955 / 384)]
    VC_dat := [(1, 229 / 288), (2, 33529 / 20736)]
    IL2_dat := [(1, 461 / 288), (2, 38225 / 20736)]
    ISource_dat := [(1, 61 / 18), (2, 1489 / 324)]
    IC_dat := [(1, 157 / 288), (2, 17041 / 20736)] }

/-- A parameter set with a zero time step, as `main` may pass to `configure`: every
component value 1, no source voltage, `delta_t = 0`, `t_total = 4`, `last_perc = 1`. -/
def stalled_run : zvs ℚ := zvs.configure Libm.rat 1 1 1 1 0 1 0 4 1 1 1

/-! ## The retry loop of main: the adjustments by region -/

/-- Rule (a) alone: below one half the doubled inductance is still below one. -/
theorem main_adjust_of_lt_half (c : zvs α) (h : c.L1 < 1 / 2) :
    main_adjust c = ({ c with L1 := c.L1 * 2 }, [Msg.readjust_L1 (c.L1 * 2)]) := by
  have h2 : c.L1 < 1 := by linarith
  have h3 : ¬ (1 ≤ c.L1 * 2) := by linarith
  unfold main_adjust
  norm_num [h2, h3]

/-- Rule (a) then rule (b), in the same pass. -/
theorem main_adjust_of_half_le_of_le (c : zvs α) (h : 1 / 2 ≤ c.L1) (h1 : c.L1 < 1)
    (hd : c.delta_t ≤ lit_100e_9) :
    main_adjust c = ({ c with L1 := c.L1 * 2 + 2 },
      [Msg.readjust_L1 (c.L1 * 2), Msg.readjust_L1 (c.L1 * 2 + 2)]) := by
  have h3 : 1 ≤ c.L1 * 2 := by linarith
  have h5 : ¬ (lit_100e_9 < c.delta_t) := not_lt.mpr hd
  unfold main_adjust
  norm_num [h1, h3, hd, h5]

/-- Rule (a) then rule (c), in the same pass. -/
theorem main_adjust_of_half_le_of_gt (c : zvs α) (h : 1 / 2 ≤ c.L1) (h1 : c.L1 < 1)
    (hd : lit_100e_9 < c.delta_t) :
    main_adjust c = ({ c with L1 := c.L1 * 2, delta_t := c.delta_t / 2 },
      [Msg.readjust_L1 (c.L1 * 2), Msg.readjust_L1_and_time_step (c.L1 * 2) (c.delta_t / 2)]) := by
  have h3 : 1 ≤ c.L1 * 2 := by linarith
  have h5 : ¬ (c.delta_t ≤ lit_100e_9) := not_le.mpr hd
  unfold main_adjust
  norm_num [h1, h3, hd, h5]

/-- Rule (b) alone. -/
theorem main_adjust_of_one_le_of_le (c : zvs α) (h : 1 ≤ c.L1) (hd : c.delta_t ≤ lit_100e_9) :
    main_adjust c = ({ c with L1 := c.L1 + 2 }, [Msg.readjust_L1 (c.L1 + 2)]) := by
  have h1 : ¬ (c.L1 < 1) := not_lt.mpr h
  have h5 : ¬ (lit_100e_9 < c.delta_t) := not_lt.mpr hd
  unfold main_adjust
  norm_num [h, h1, hd, h5]

/-- Rule (c) alone. -/
theorem main_adjust_of_one_le_of_gt (c : zvs α) (h : 1 ≤ c.L1) (hd : lit_100e_9 < c.delta_t) :
    main_adjust c = ({ c with delta_t := c.delta_t / 2 },
      [Msg.readjust_L1_and_time_step c.L1 (c.delta_t / 2)]) := by
  have h1 : ¬ (c.L1 < 1) := not_lt.mpr h
  have h5 : ¬ (c.delta_t ≤ lit_100e_9) := not_le.mpr hd
  unfold main_adjust
  norm_num [h, h1, hd, h5]

/-- The circuit left by the retry body is the one left by the adjustments. -/
theorem main_retry_fst (c : zvs α) : (main_retry c).1 = (main_adjust c).1 := by
  simp only [main_retry]
  split_ifs <;> rfl

/-- The `break` is taken exactly when the give-up test holds on the adjusted circuit. -/
theorem main_retry_break_iff (c : zvs α) :
    (main_retry c).2.2 = true ↔
      20 < (main_adjust c).1.L1 ∧ (main_adjust c).1.delta_t < lit_0_01e_9 := by
  simp only [main_retry]
  split_ifs with h
  · norm_num at h ⊢
    exact h
  · norm_num at h ⊢
    exact h

/-- The give-up literal is below half the halving literal, and both are positive. -/
theorem lit_order :
    (0 : α) < lit_0_01e_9 ∧ (lit_0_01e_9 : α) ≤ lit_100e_9 / 2 ∧ (0 : α) < lit_100e_9 ∧
      (lit_100e_9 : α) < 1 / 10 ^ 7 ∧ (lit_0_01e_9 : α) < 1 / 10 ^ 11 := by
  unfold lit_0_01e_9 lit_100e_9
  norm_num

/-- The adjustments never take the time step below the literal `0.01e-9` when it was not
below it. -/
theorem main_adjust_delta_t_ge (c : zvs α) (h : lit_0_01e_9 ≤ c.delta_t) :
    lit_0_01e_9 ≤ (main_adjust c).1.delta_t := by
  have key : (lit_0_01e_9 : α) ≤ lit_100e_9 / 2 := lit_order.2.1
  rcases lt_or_le c.L1 (1 / 2) with h1 | h1
  · rw [main_adjust_of_lt_half c h1]; exact h
  · rcases lt_or_le c.L1 1 with h2 | h2 <;> rcases le_or_lt c.delta_t lit_100e_9 with h3 | h3
    · rw [main_adjust_of_half_le_of_le c h1 h2 h3]; exact h
    · rw [main_adjust_of_half_le_of_gt c h1 h2 h3]
      show lit_0_01e_9 ≤ c.delta_t / 2
      linarith
    · rw [main_adjust_of_one_le_of_le c h2 h3]; exact h
    · rw [main_adjust_of_one_le_of_gt c h2 h3]
      show lit_0_01e_9 ≤ c.delta_t / 2
      linarith

/-- No give-up after a retry that starts with a time step of at least the literal
`0.01e-9`. -/
theorem main_retry_no_break (c : zvs α) (h : lit_0_01e_9 ≤ c.delta_t) :
    (main_retry c).2.2 = false := by
  have h1 := main_adjust_delta_t_ge c h
  cases hb : (main_retry c).2.2 with
  | false => rfl
  | true =>
    have := ((main_retry_break_iff c).mp hb).2
    exact absurd this (not_lt.mpr h1)

/-- When every attempt reports a convergence error and the time step starts at the literal
`0.01e-9` or more, the retry loop exhausts any amount of fuel. -/
theorem main_loop_none (sim : zvs α → Bool) (hsim : ∀ c, sim c = true) :
    ∀ (fuel : ℕ) (c : zvs α) (out : List (Msg α)), lit_0_01e_9 ≤ c.delta_t →
      main_loop sim fuel c out = none := by
  intro fuel
  induction fuel with
  | zero => intro c out _; rfl
  | succ k ih =>
    intro c out h
    have hb := main_retry_no_break c h
    have hd : lit_0_01e_9 ≤ (main_retry c).1.delta_t := by
      rw [main_retry_fst]; exact main_adjust_delta_t_ge c h
    simp only [main_loop, hsim, hb, if_true]
    exact ih _ _ hd

/-- One retry moves the inductance one place along `L1_after`. -/
theorem L1_after_step (c : zvs α) (hd : c.delta_t ≤ lit_100e_9) (n : ℕ)
    (h : c.L1 = L1_after n) :
    main_adjust c = ({ c with L1 := L1_after (n + 1) },
      if n < 3 then [Msg.readjust_L1 (L1_after (n + 1))]
      else if n = 3 then [Msg.readjust_L1 1.6, Msg.readjust_L1 3.6]
      else [Msg.readjust_L1 (L1_after (n + 1))]) := by
  rcases Nat.lt_or_ge n 3 with h3 | h3
  · have h1 : c.L1 < 1 / 2 := by
      rw [h]
      interval_cases n <;> norm_num [L1_after]
    rw [main_adjust_of_lt_half c h1, if_pos h3, h]
    have : (L1_after n : α) * 2 = L1_after (n + 1) := by
      interval_cases n <;> norm_num [L1_after]
    rw [this]
  · rcases Nat.eq_or_lt_of_le h3 with h4 | h4
    · subst h4
      have e : c.L1 = 4 / 5 := by rw [h]; norm_num [L1_after]
      rw [main_adjust_of_half_le_of_le c (by rw [e]; norm_num) (by rw [e]; norm_num) hd, e]
      norm_num [L1_after]
    · have e : c.L1 = 3.6 + 2.0 * ((n : α) - 4) := by
        rw [h, L1_after, if_neg (by omega)]
      have hn : (4 : α) ≤ n := by exact_mod_cast h4
      rw [main_adjust_of_one_le_of_le c (by rw [e]; norm_num; linarith) hd]
      have e' : c.L1 + 2 = L1_after (n + 1) := by
        rw [e, L1_after, if_neg (by omega)]
        push_cast
        norm_num
        ring
      rw [e', if_neg (by omega), if_neg (by omega)]


/-- Without give-up the messages of a retry are those of the adjustments. -/
theorem main_retry_msgs_of_no_break (c : zvs α) (hb : (main_retry c).2.2 = false) :
    (main_retry c).2.1 = (main_adjust c).2 := by
  simp only [main_retry] at hb ⊢
  by_cases h : (main_adjust c).1.L1 > 20.0 ∧ (main_adjust c).1.delta_t < lit_0_01e_9
  · rw [if_pos h] at hb
    exact absurd hb (by simp)
  · rw [if_neg h]

/-- The circuit after `n` retries from `L1 = 0.1` with a time step of at most the literal
`100e-9`. -/
theorem iterate_retry_of_L1_tenth (c : zvs α) (hL : c.L1 = 0.1) (hd : c.delta_t ≤ lit_100e_9)
    (n : ℕ) : (fun c => (main_retry c).1)^[n] c = { c with L1 := L1_after n } := by
  induction n with
  | zero =>
    have : (L1_after 0 : α) = c.L1 := by rw [hL]; norm_num [L1_after]
    rw [this]
    rfl
  | succ k ih =>
    rw [Function.iterate_succ_apply', ih, main_retry_fst,
      L1_after_step { c with L1 := L1_after k } hd k rfl]

/-! ## C1 and C2: the retry loop -/

/-- C1 (as amended): the three adjustment rules are applied in sequence, each guard tested on
the values left by the rule before it, with `100e-9` the value of the `double` literal of
the source (slightly below `10^-7`).  Exactly one rule is applied when `L1 < 0.5` (rule a)
or `L1 ≥ 1.0` (rule b or c, by the time step); when `0.5 ≤ L1 < 1.0` rule (a) is followed
in the same retry by rule (b) or (c). -/
theorem main_adjust_rules (c : zvs α) :
    (c.L1 < 0.5 →
      main_adjust c = ({ c with L1 := c.L1 * 2 }, [Msg.readjust_L1 (c.L1 * 2)])) ∧
    (0.5 ≤ c.L1 → c.L1 < 1.0 → c.delta_t ≤ lit_100e_9 →
      main_adjust c = ({ c with L1 := c.L1 * 2 + 2 },
        [Msg.readjust_L1 (c.L1 * 2), Msg.readjust_L1 (c.L1 * 2 + 2)])) ∧
    (0.5 ≤ c.L1 → c.L1 < 1.0 → c.delta_t > lit_100e_9 →
      main_adjust c = ({ c with L1 := c.L1 * 2, delta_t := c.delta_t / 2 },
        [Msg.readjust_L1 (c.L1 * 2),
          Msg.readjust_L1_and_time_step (c.L1 * 2) (c.delta_t / 2)])) ∧
    (1.0 ≤ c.L1 → c.delta_t ≤ lit_100e_9 →
      main_adjust c = ({ c with L1 := c.L1 + 2 }, [Msg.readjust_L1 (c.L1 + 2)])) ∧
    (1.0 ≤ c.L1 → c.delta_t > lit_100e_9 →
      main_adjust c = ({ c with delta_t := c.delta_t / 2 },
        [Msg.readjust_L1_and_time_step c.L1 (c.delta_t / 2)])) ∧
    (lit_100e_9 : α) < 1 / 10 ^ 7 := by
  refine ⟨fun h => ?_, fun h h1 hd => ?_, fun h h1 hd => ?_, fun h hd => ?_, fun h hd => ?_,
    lit_order.2.2.2.1⟩
  · exact main_adjust_of_lt_half c (by norm_num at h ⊢; exact h)
  · exact main_adjust_of_half_le_of_le c (by norm_num at h ⊢; exact h)
      (by norm_num at h1; exact h1) hd
  · exact main_adjust_of_half_le_of_gt c (by norm_num at h ⊢; exact h)
      (by norm_num at h1; exact h1) hd
  · exact main_adjust_of_one_le_of_le c (by norm_num at h; exact h) hd
  · exact main_adjust_of_one_le_of_gt c (by norm_num at h; exact h) hd

/-- Witness of C1 (as amended): from `L1 = 0.8`, `delta_t = 1e-9`, rule (a) then rule (b);
from `L1 = 1` and the stored value of the input `100e-9`, which exceeds the `double`
literal, rule (c). -/
theorem main_adjust_rules_witness :
    ((0.5 : ℚ) ≤ (scenario 0.8 1e-9).L1 ∧ (scenario 0.8 1e-9).L1 < 1.0 ∧
      (scenario 0.8 1e-9).delta_t ≤ lit_100e_9 ∧
      main_adjust (scenario 0.8 1e-9) =
        ({ scenario 0.8 1e-9 with L1 := (scenario 0.8 1e-9).L1 * 2 + 2 },
          [Msg.readjust_L1 ((scenario 0.8 1e-9).L1 * 2),
            Msg.readjust_L1 ((scenario 0.8 1e-9).L1 * 2 + 2)])) ∧
    ((1.0 : ℚ) ≤ (scenario 1 stored_100e_9).L1 ∧
      (scenario 1 stored_100e_9).delta_t > lit_100e_9 ∧
      main_adjust (scenario 1 stored_100e_9) =
        ({ scenario 1 stored_100e_9 with delta_t := (scenario 1 stored_100e_9).delta_t / 2 },
          [Msg.readjust_L1_and_time_step (scenario 1 stored_100e_9).L1
            ((scenario 1 stored_100e_9).delta_t / 2)])) :=
  have h1 : (0.5 : ℚ) ≤ (scenario 0.8 1e-9).L1 := by norm_num [scenario, zvs.configure]
  have h2 : (scenario 0.8 1e-9).L1 < 1.0 := by norm_num [scenario, zvs.configure]
  have h3 : (scenario 0.8 1e-9).delta_t ≤ lit_100e_9 := by
    norm_num [scenario, zvs.configure, lit_100e_9]
  have h4 : (1.0 : ℚ) ≤ (scenario 1 stored_100e_9).L1 := by norm_num [scenario, zvs.configure]
  have h5 : (scenario 1 stored_100e_9).delta_t > lit_100e_9 := by
    norm_num [scenario, zvs.configure, lit_100e_9, stored_100e_9]
  ⟨⟨h1, h2, h3, (main_adjust_rules (scenario 0.8 1e-9)).2.1 h1 h2 h3⟩,
    ⟨h4, h5, (main_adjust_rules (scenario 1 stored_100e_9)).2.2.2.2.1 h4 h5⟩⟩

/-- C1 (as stated) fails: from `L1 = 0.8`, `delta_t = 1e-9` the guard of rule (a) is the first
that holds, but the retry leaves `L1 = 3.6`, not `2 * 0.8 = 1.6`: two rules were applied
and two messages printed. -/
theorem main_adjust_two_rules :
    (scenario 0.8 1e-9).L1 < 1.0 ∧
      (main_adjust (scenario 0.8 1e-9)).1.L1 = 3.6 ∧
      (main_adjust (scenario 0.8 1e-9)).1.delta_t = 1e-9 ∧
      (main_adjust (scenario 0.8 1e-9)).1.L1 ≠ 2 * (scenario 0.8 1e-9).L1 ∧
      (main_adjust (scenario 0.8 1e-9)).2 = [Msg.readjust_L1 1.6, Msg.readjust_L1 3.6] := by
  norm_num [main_adjust, scenario, zvs.configure, lit_100e_9]

/-- C2 (as amended): from `L1 = 0.1`, `delta_t = 1e-9`, with every attempt diverging, the
circuit after `n` retries has the same time step and `L1 = 0.1 * 2 ^ n` for `n ≤ 3`, then
`3.6 + 2 * (n - 4)`: three doublings, one retry that doubles and adds `2.0`, then `+ 2.0`
per retry.  The time step is never halved, no retry takes the give-up `break`, and the loop
exhausts every amount of fuel. -/
theorem retry_trajectory (sim : zvs α → Bool) (hsim : ∀ c, sim c = true) (c : zvs α)
    (hL : c.L1 = 0.1) (hd : c.delta_t = 1e-9) :
    (∀ n : ℕ, (fun c => (main_retry c).1)^[n] c =
        { c with L1 := if n ≤ 3 then 0.1 * 2 ^ n else 3.6 + 2.0 * ((n : α) - 4) }) ∧
      (∀ n : ℕ, (main_retry ((fun c => (main_retry c).1)^[n] c)).2.1 =
        (if n < 3 then [Msg.readjust_L1 (0.1 * 2 ^ (n + 1))]
          else if n = 3 then [Msg.readjust_L1 1.6, Msg.readjust_L1 3.6]
          else [Msg.readjust_L1 (3.6 + 2.0 * ((n : α) - 3))])) ∧
      (∀ n : ℕ, (main_retry ((fun c => (main_retry c).1)^[n] c)).2.2 = false) ∧
      (∀ (fuel : ℕ) (out : List (Msg α)), main_loop sim fuel c out = none) := by
  have hd7 : c.delta_t ≤ lit_100e_9 := by rw [hd]; norm_num [lit_100e_9]
  have hd11 : (lit_0_01e_9 : α) ≤ c.delta_t := by rw [hd]; norm_num [lit_0_01e_9]
  have hit := iterate_retry_of_L1_tenth c hL hd7
  have hno : ∀ n : ℕ, (main_retry ((fun c => (main_retry c).1)^[n] c)).2.2 = false := by
    intro n
    apply main_retry_no_break
    rw [hit n]
    exact hd11
  refine ⟨fun n => ?_, fun n => ?_, hno, fun fuel out => main_loop_none sim hsim fuel c out hd11⟩
  · rw [hit n]; rfl
  · have hb := hno n
    rw [main_retry_msgs_of_no_break _ hb, hit n,
      L1_after_step { c with L1 := L1_after n } hd7 n rfl]
    by_cases h3 : n < 3
    · simp only [if_pos h3, L1_after, if_pos (show n + 1 ≤ 3 by omega)]
    · by_cases h4 : n = 3
      · simp only [if_neg h3, if_pos h4]
      · simp only [if_neg h3, if_neg h4, L1_after, if_neg (show ¬ n + 1 ≤ 3 by omega)]
        congr 2
        push_cast
        ring

/-- Witness of C2 (as amended): the sample circuit with `L1 = 0.1`, `delta_t = 1e-9`. -/
theorem retry_trajectory_witness :
    (∀ c : zvs ℚ, (fun _ => true) c = true) ∧
      (scenario 0.1 1e-9).L1 = 0.1 ∧ (scenario 0.1 1e-9).delta_t = 1e-9 ∧
      (∀ n : ℕ, (fun c => (main_retry c).1)^[n] (scenario 0.1 1e-9) =
        { scenario 0.1 1e-9 with
          L1 := if n ≤ 3 then 0.1 * 2 ^ n else 3.6 + 2.0 * ((n : ℚ) - 4) }) ∧
      (∀ n : ℕ, (main_retry ((fun c => (main_retry c).1)^[n] (scenario 0.1 1e-9))).2.1 =
        (if n < 3 then [Msg.readjust_L1 (0.1 * 2 ^ (n + 1))]
          else if n = 3 then [Msg.readjust_L1 1.6, Msg.readjust_L1 3.6]
          else [Msg.readjust_L1 (3.6 + 2.0 * ((n : ℚ) - 3))])) ∧
      (∀ n : ℕ, (main_retry ((fun c => (main_retry c).1)^[n] (scenario 0.1 1e-9))).2.2 = false) ∧
      (∀ (fuel : ℕ) (out : List (Msg ℚ)),
        main_loop (fun _ => true) fuel (scenario 0.1 1e-9) out = none) :=
  ⟨fun _ => rfl, by norm_num [scenario, zvs.configure], by norm_num [scenario, zvs.configure],
    retry_trajectory (fun _ => true) (fun _ => rfl) (scenario 0.1 1e-9)
      (by norm_num [scenario, zvs.configure]) (by norm_num [scenario, zvs.configure])⟩

/-- C2 (as stated) fails: from `L1 = 0.1`, `delta_t = 1e-9`, with every attempt diverging, no
amount of fuel lets the retry loop of `main` reach an end, in the give-up state or
otherwise. -/
theorem retry_never_gives_up :
    ¬ ∃ (fuel : ℕ) (r : zvs ℚ × List (Msg ℚ)),
      main_loop (fun _ => true) fuel (scenario 0.1 1e-9) [] = some r := by
  rintro ⟨fuel, r, h⟩
  rw [main_loop_none (fun _ => true) (fun _ => rfl) fuel (scenario 0.1 1e-9) []
    (by norm_num [scenario, zvs.configure, lit_0_01e_9])] at h
  exact Option.noConfusion h

/-! ## The switch resistance: breakpoints -/

/-- The breakpoints of a configured switch, in plain form. -/
theorem configure_fields (T_ slope_ value_ : α) :
    (classR.configure T_ slope_ value_).p1 = T_ * (slope_ / 100) ∧
    (classR.configure T_ slope_ value_).p2 = T_ / 2 - T_ * (slope_ / 100) / 2 ∧
    (classR.configure T_ slope_ value_).p3 = T_ / 2 + T_ * (slope_ / 100) / 2 ∧
    (classR.configure T_ slope_ value_).p4 = T_ ∧
    (classR.configure T_ slope_ value_).T = T_ ∧
    (classR.configure T_ slope_ value_).max_value = value_ := by
  simp only [classR.configure]
  norm_num

section Switch

variable [FloorRing α]

/-! ## The switch resistance -/

/-- On non-negative arguments `modf` is the fractional part. -/
theorem modf_of_nonneg {x : α} (h : 0 ≤ x) : modf x = Int.fract x := by
  unfold modf
  rw [if_pos h]
  rfl

/-- On negative arguments `modf` subtracts the ceiling. -/
theorem modf_of_neg {x : α} (h : x < 0) : modf x = x - ⌈x⌉ := by
  unfold modf
  rw [if_neg (not_le.mpr h)]

/-- The fractional part is the argument itself on `[0, 1)`. -/
theorem modf_eq_self {x : α} (h0 : 0 ≤ x) (h1 : x < 1) : modf x = x := by
  rw [modf_of_nonneg h0]
  exact Int.fract_eq_self.mpr ⟨h0, h1⟩

/-- The fractional part of a non-negative number lies in `[0, 1)`. -/
theorem modf_mem_of_nonneg {x : α} (h : 0 ≤ x) : 0 ≤ modf x ∧ modf x < 1 := by
  rw [modf_of_nonneg h]
  exact ⟨Int.fract_nonneg x, Int.fract_lt_one x⟩

/-- Adding one does not change `modf` when the argument and its successor are both
non-negative or both non-positive. -/
theorem modf_add_one {x : α} (h : 0 ≤ x ∨ x + 1 ≤ 0) : modf (x + 1) = modf x := by
  rcases h with h | h
  · rw [modf_of_nonneg h, modf_of_nonneg (by linarith), Int.fract_add_one]
  · have hx : x < 0 := by linarith
    rw [modf_of_neg hx]
    rcases eq_or_lt_of_le h with h1 | h1
    · have e : x = -1 := by linarith
      rw [h1, e, modf_of_nonneg le_rfl]
      have hc : ⌈(-1 : α)⌉ = -1 := by
        have := (Int.ceil_intCast (-1) : ⌈((-1 : ℤ) : α)⌉ = -1)
        simpa using this
      rw [hc]
      simp
    · rw [modf_of_neg h1, Int.ceil_add_one]
      push_cast
      ring

/-- The reduced time of a configured switch, in plain form. -/
theorem reduce_configure (T_ slope_ value_ t : α) :
    (classR.configure T_ slope_ value_).reduce t = T_ * modf (t / T_) := by
  simp only [classR.reduce, classR.configure]
  norm_num

/-- The reduced time does not change over one period, away from the sign change. -/
theorem reduce_add_period (T_ slope_ value_ t : α) (hT : 0 < T_)
    (h : 0 ≤ t ∨ t + T_ ≤ 0) :
    (classR.configure T_ slope_ value_).reduce (t + T_) =
      (classR.configure T_ slope_ value_).reduce t := by
  rw [reduce_configure, reduce_configure]
  have e : (t + T_) / T_ = t / T_ + 1 := by field_simp
  rw [e, modf_add_one]
  rcases h with h | h
  · exact Or.inl (div_nonneg h hT.le)
  · right
    have : t / T_ + 1 = (t + T_) / T_ := e.symm
    rw [this]
    exact div_nonpos_of_nonpos_of_nonneg h hT.le

/-- For non-negative times the reduced time lies in `[0, T)`. -/
theorem reduce_mem (T_ slope_ value_ t : α) (hT : 0 < T_) (ht : 0 ≤ t) :
    0 ≤ (classR.configure T_ slope_ value_).reduce t ∧
      (classR.configure T_ slope_ value_).reduce t < T_ := by
  rw [reduce_configure]
  have h := modf_mem_of_nonneg (div_nonneg ht hT.le)
  constructor
  · exact mul_nonneg hT.le h.1
  · calc T_ * modf (t / T_) < T_ * 1 := by
          exact mul_lt_mul_of_pos_left h.2 hT
      _ = T_ := mul_one _

/-- A time in `[0, T)` is its own reduced time. -/
theorem reduce_eq_self (T_ slope_ value_ t : α) (hT : 0 < T_) (ht : 0 ≤ t) (ht' : t < T_) :
    (classR.configure T_ slope_ value_).reduce t = t := by
  rw [reduce_configure, modf_eq_self (div_nonneg ht hT.le) ((div_lt_one hT).mpr ht')]
  field_simp

/-- The value depends on the time only through the reduced time. -/
theorem value_congr (r : classR α) {t t' : α} (h : r.reduce t = r.reduce t') :
    r.value t = r.value t' := by
  simp only [classR.value, h]


/-- The cascade of `classR::value`, read branch by branch on the reduced time. -/
theorem value_branches (r : classR α) (t : α) :
    (r.reduce t ≤ r.p1 → r.value t = r.max_value * r.reduce t / r.p1) ∧
    (r.p1 < r.reduce t → r.reduce t ≤ r.p2 → r.value t = r.max_value) ∧
    (r.p1 < r.reduce t → r.p2 < r.reduce t → r.reduce t ≤ r.p3 →
      r.value t = r.max_value * (1 - (r.reduce t - r.p2) / (r.p3 - r.p2))) ∧
    (r.p1 < r.reduce t → r.p2 < r.reduce t → r.p3 < r.reduce t → r.value t = 0) := by
  refine ⟨fun h => ?_, fun h1 h2 => ?_, fun h1 h2 h3 => ?_, fun h1 h2 h3 => ?_⟩
  · simp only [classR.value, if_pos h]
  · simp only [classR.value, if_neg (not_le.mpr h1)]
    rw [if_pos ⟨h1, h2⟩]
  · simp only [classR.value, if_neg (not_le.mpr h1)]
    rw [if_neg (fun h => absurd h.2 (not_le.mpr h2)), if_pos ⟨h2, h3⟩]
    norm_num
  · simp only [classR.value, if_neg (not_le.mpr h1)]
    rw [if_neg (fun h => absurd h.2 (not_le.mpr h2)),
      if_neg (fun h => absurd h.2 (not_le.mpr h3))]
    simp

/-! ## C3, C4: the switch resistance as a function of time -/

/-- C3 (as amended): with period `T > 0` and `slope_R > 0`, in exact arithmetic
`classR::value` satisfies `value(t + T) = value(t)` for every `t ≥ 0`, and more generally
whenever `t` and `t + T` are not on opposite sides of zero (`t ≥ 0` or `t + T ≤ 0`). -/
theorem value_periodic (T_ slope_ value_ t : α) (hT : 0 < T_) (_hs : 0 < slope_)
    (h : 0 ≤ t ∨ t + T_ ≤ 0) :
    (classR.configure T_ slope_ value_).value (t + T_) =
      (classR.configure T_ slope_ value_).value t :=
  value_congr _ (reduce_add_period T_ slope_ value_ t hT h)

/-- Witness of C3 (as amended): period 2, slope 50, resistance 1, at `t = 1/2`, where both
values are `1/2`. -/
theorem value_periodic_witness :
    (0 : ℚ) < 2 ∧ (0 : ℚ) < 50 ∧ ((0 : ℚ) ≤ 1 / 2 ∨ (1 / 2 : ℚ) + 2 ≤ 0) ∧
      (classR.configure (2 : ℚ) 50 1).value (1 / 2 + 2) =
        (classR.configure (2 : ℚ) 50 1).value (1 / 2) ∧
      (classR.configure (2 : ℚ) 50 1).value (1 / 2) = 1 / 2 := by
  refine ⟨by norm_num, by norm_num, Or.inl (by norm_num),
    value_periodic (2 : ℚ) 50 1 (1 / 2) (by norm_num) (by norm_num) (Or.inl (by norm_num)), ?_⟩
  have hr : (classR.configure (2 : ℚ) 50 1).reduce (1 / 2) = 1 / 2 := by
    rw [reduce_eq_self] <;> norm_num
  simp only [classR.value, hr]
  norm_num [classR.configure]

/-- C3 (as stated) fails at a negative time: with period 2, slope 50 and resistance 1,
`value(-1) = -1` while `value(-1 + 2) = 1`. -/
theorem value_not_periodic_at_negative :
    (0 : ℚ) < 2 ∧ (0 : ℚ) < 50 ∧
      (classR.configure (2 : ℚ) 50 1).value (-1) = -1 ∧
      (classR.configure (2 : ℚ) 50 1).value (-1 + 2) = 1 ∧
      (classR.configure (2 : ℚ) 50 1).value (-1 + 2) ≠
        (classR.configure (2 : ℚ) 50 1).value (-1) := by
  have h1 : (classR.configure (2 : ℚ) 50 1).reduce (-1) = -1 := by
    rw [reduce_configure, modf_of_neg (by norm_num)]
    have hc : ⌈((-1 : ℚ) / 2)⌉ = 0 := by
      rw [Int.ceil_eq_iff]; norm_num
    rw [hc]; norm_num
  have h2 : (classR.configure (2 : ℚ) 50 1).reduce (-1 + 2) = 1 := by
    rw [reduce_eq_self] <;> norm_num
  have v1 : (classR.configure (2 : ℚ) 50 1).value (-1) = -1 := by
    simp only [classR.value, h1]
    norm_num [classR.configure]
  have v2 : (classR.configure (2 : ℚ) 50 1).value (-1 + 2) = 1 := by
    simp only [classR.value, h2]
    norm_num [classR.configure]
  refine ⟨by norm_num, by norm_num, v1, v2, ?_⟩
  rw [v1, v2]
  norm_num

/-- C4 (as amended): for `T > 0`, `slope_R > 0` and `t ≥ 0` the reduced time `tau` lies in
`[0, T)` and `classR::value(t)` is `R*tau/p1` on `[0, p1]`, `R` on `(p1, p2]`,
`R*(1 - (tau - p2)/(p3 - p2))` on the part of `(p2, p3]` above `p1`, and `0` on `(p3, T)`;
the whole of `(p2, p3]` is above `p1` when `slope_R ≤ 100/3`. -/
theorem value_piecewise (T_ slope_ value_ t : α) (hT : 0 < T_) (hs : 0 < slope_)
    (ht : 0 ≤ t) :
    (0 ≤ (classR.configure T_ slope_ value_).reduce t ∧
      (classR.configure T_ slope_ value_).reduce t < T_) ∧
    ((classR.configure T_ slope_ value_).reduce t ≤ (classR.configure T_ slope_ value_).p1 →
      (classR.configure T_ slope_ value_).value t =
        value_ * (classR.configure T_ slope_ value_).reduce t /
          (classR.configure T_ slope_ value_).p1) ∧
    ((classR.configure T_ slope_ value_).p1 < (classR.configure T_ slope_ value_).reduce t →
      (classR.configure T_ slope_ value_).reduce t ≤ (classR.configure T_ slope_ value_).p2 →
      (classR.configure T_ slope_ value_).value t = value_) ∧
    ((classR.configure T_ slope_ value_).p1 < (classR.configure T_ slope_ value_).reduce t →
      (classR.configure T_ slope_ value_).p2 < (classR.configure T_ slope_ value_).reduce t →
      (classR.configure T_ slope_ value_).reduce t ≤ (classR.configure T_ slope_ value_).p3 →
      (classR.configure T_ slope_ value_).value t =
        value_ * (1 - ((classR.configure T_ slope_ value_).reduce t -
            (classR.configure T_ slope_ value_).p2) /
          ((classR.configure T_ slope_ value_).p3 - (classR.configure T_ slope_ value_).p2))) ∧
    ((classR.configure T_ slope_ value_).p3 < (classR.configure T_ slope_ value_).reduce t →
      (classR.configure T_ slope_ value_).value t = 0) ∧
    (slope_ ≤ 100 / 3 →
      (classR.configure T_ slope_ value_).p1 ≤ (classR.configure T_ slope_ value_).p2) := by
  obtain ⟨e1, e2, e3, -, -, e6⟩ := configure_fields T_ slope_ value_
  have hb := value_branches (classR.configure T_ slope_ value_) t
  rw [e6] at hb
  have hm := reduce_mem T_ slope_ value_ t hT ht
  have hTs : 0 < T_ * (slope_ / 100) := mul_pos hT (by positivity)
  refine ⟨hm, hb.1, hb.2.1, hb.2.2.1, fun h3 => ?_, fun h => ?_⟩
  · have hlt : T_ * (slope_ / 100) < T_ := by
      rw [e3] at h3
      linarith [hm.2]
    apply hb.2.2.2 _ _ h3
    · rw [e1]; rw [e3] at h3; linarith
    · rw [e2]; rw [e3] at h3; linarith
  · rw [e1, e2]
    have : T_ * (slope_ / 100) ≤ T_ * (1 / 3) :=
      mul_le_mul_of_nonneg_left (by linarith) hT.le
    linarith


/-- Witness of C4 (as amended): period 4, slope 10, resistance 3, at `t = 1`. -/
theorem value_piecewise_witness :
    (0 : ℚ) < 4 ∧ (0 : ℚ) < 10 ∧ (0 : ℚ) ≤ 1 ∧
    ((0 ≤ (classR.configure (4 : ℚ) 10 3).reduce 1 ∧
      (classR.configure (4 : ℚ) 10 3).reduce 1 < 4) ∧
    ((classR.configure (4 : ℚ) 10 3).reduce 1 ≤ (classR.configure (4 : ℚ) 10 3).p1 →
      (classR.configure (4 : ℚ) 10 3).value 1 =
        3 * (classR.configure (4 : ℚ) 10 3).reduce 1 /
          (classR.configure (4 : ℚ) 10 3).p1) ∧
    ((classR.configure (4 : ℚ) 10 3).p1 < (classR.configure (4 : ℚ) 10 3).reduce 1 →
      (classR.configure (4 : ℚ) 10 3).reduce 1 ≤ (classR.configure (4 : ℚ) 10 3).p2 →
      (classR.configure (4 : ℚ) 10 3).value 1 = 3) ∧
    ((classR.configure (4 : ℚ) 10 3).p1 < (classR.configure (4 : ℚ) 10 3).reduce 1 →
      (classR.configure (4 : ℚ) 10 3).p2 < (classR.configure (4 : ℚ) 10 3).reduce 1 →
      (classR.configure (4 : ℚ) 10 3).reduce 1 ≤ (classR.configure (4 : ℚ) 10 3).p3 →
      (classR.configure (4 : ℚ) 10 3).value 1 =
        3 * (1 - ((classR.configure (4 : ℚ) 10 3).reduce 1 -
            (classR.configure (4 : ℚ) 10 3).p2) /
          ((classR.configure (4 : ℚ) 10 3).p3 - (classR.configure (4 : ℚ) 10 3).p2))) ∧
    ((classR.configure (4 : ℚ) 10 3).p3 < (classR.configure (4 : ℚ) 10 3).reduce 1 →
      (classR.configure (4 : ℚ) 10 3).value 1 = 0) ∧
    ((10 : ℚ) ≤ 100 / 3 →
      (classR.configure (4 : ℚ) 10 3).p1 ≤ (classR.configure (4 : ℚ) 10 3).p2)) :=
  ⟨by norm_num, by norm_num, by norm_num,
    value_piecewise (4 : ℚ) 10 3 1 (by norm_num) (by norm_num) (by norm_num)⟩

/-- C4 (as stated) fails when the ramps overlap: with period 4, slope 50 and resistance 1
the breakpoints are `p1 = 2`, `p2 = 1`, `p3 = 3`; at `t = 2` the reduced time 2 lies in
`(p2, p3]`, where the claim gives `1 - (2 - 1)/(3 - 1) = 1/2`, but the first branch of the
cascade returns `1 * 2 / 2 = 1`. -/
theorem value_not_piecewise_when_ramps_overlap :
    (classR.configure (4 : ℚ) 50 1).p1 = 2 ∧
    (classR.configure (4 : ℚ) 50 1).p2 = 1 ∧
    (classR.configure (4 : ℚ) 50 1).p3 = 3 ∧
    (classR.configure (4 : ℚ) 50 1).reduce 2 = 2 ∧
    (classR.configure (4 : ℚ) 50 1).value 2 = 1 ∧
    (classR.configure (4 : ℚ) 50 1).value 2 ≠
      1 * (1 - ((classR.configure (4 : ℚ) 50 1).reduce 2 - (classR.configure (4 : ℚ) 50 1).p2) /
        ((classR.configure (4 : ℚ) 50 1).p3 - (classR.configure (4 : ℚ) 50 1).p2)) := by
  have hr : (classR.configure (4 : ℚ) 50 1).reduce 2 = 2 := by
    rw [reduce_eq_self] <;> norm_num
  have hv : (classR.configure (4 : ℚ) 50 1).value 2 = 1 := by
    simp only [classR.value, hr]
    norm_num [classR.configure]
  refine ⟨by norm_num [classR.configure], by norm_num [classR.configure],
    by norm_num [classR.configure], hr, hv, ?_⟩
  rw [hv, hr]
  norm_num [classR.configure]

/-- The boundary values in exact arithmetic: for `T > 0` and `0 < slope_R < 100`, after
`configure(T, slope_R, R)`, `value(p1) = R` and `value(p3) = 0`.  This says nothing about
the rounded values the program computes. -/
theorem value_at_breakpoints (T_ slope_ value_ : α) (hT : 0 < T_) (hs : 0 < slope_)
    (hs' : slope_ < 100) :
    (classR.configure T_ slope_ value_).value (classR.configure T_ slope_ value_).p1 = value_ ∧
    (classR.configure T_ slope_ value_).value (classR.configure T_ slope_ value_).p3 = 0 := by
  obtain ⟨e1, e2, e3, -, -, e6⟩ := configure_fields T_ slope_ value_
  have hpos : 0 < T_ * (slope_ / 100) := mul_pos hT (by positivity)
  have hlt : T_ * (slope_ / 100) < T_ := by
    have : T_ * (slope_ / 100) < T_ * 1 :=
      mul_lt_mul_of_pos_left (by rw [div_lt_one (by norm_num)]; exact hs') hT
    linarith
  have r1 : (classR.configure T_ slope_ value_).reduce (classR.configure T_ slope_ value_).p1 =
      (classR.configure T_ slope_ value_).p1 := by
    apply reduce_eq_self _ _ _ _ hT <;> rw [e1] <;> linarith
  have r3 : (classR.configure T_ slope_ value_).reduce (classR.configure T_ slope_ value_).p3 =
      (classR.configure T_ slope_ value_).p3 := by
    apply reduce_eq_self _ _ _ _ hT <;> rw [e3] <;> linarith
  constructor
  · rw [(value_branches _ _).1 (le_of_eq r1), r1, e6, e1]
    field_simp
  · rw [(value_branches _ _).2.2.1 (by rw [r3, e1, e3]; linarith) (by rw [r3, e2, e3]; linarith)
      (le_of_eq r3), r3, e2, e3]
    have : T_ / 2 + T_ * (slope_ / 100) / 2 - (T_ / 2 - T_ * (slope_ / 100) / 2) =
        T_ * (slope_ / 100) := by ring
    rw [this, div_self hpos.ne']
    ring

/-- The boundary values for period 4, slope 10, resistance 3. -/
theorem value_at_breakpoints_example :
    (0 : ℚ) < 4 ∧ (0 : ℚ) < 10 ∧ (10 : ℚ) < 100 ∧
    (classR.configure (4 : ℚ) 10 3).value (classR.configure (4 : ℚ) 10 3).p1 = 3 ∧
    (classR.configure (4 : ℚ) 10 3).value (classR.configure (4 : ℚ) 10 3).p3 = 0 :=
  ⟨by norm_num, by norm_num, by norm_num,
    value_at_breakpoints (4 : ℚ) 10 3 (by norm_num) (by norm_num) (by norm_num)⟩

/-- When the slope is a whole period the boundary value is lost: with `T = 1`,
`slope_R = 100` and `R = 1` the breakpoint `p1` is 1, whose reduced time is 0, and
`value(p1) = 0`, not `R`. -/
theorem value_at_p1_with_full_slope :
    (0 : ℚ) < 1 ∧ (0 : ℚ) < 100 ∧
    (classR.configure (1 : ℚ) 100 1).p1 = 1 ∧
    (classR.configure (1 : ℚ) 100 1).value (classR.configure (1 : ℚ) 100 1).p1 = 0 ∧
    (classR.configure (1 : ℚ) 100 1).value (classR.configure (1 : ℚ) 100 1).p1 ≠ 1 := by
  have hp : (classR.configure (1 : ℚ) 100 1).p1 = 1 := by norm_num [classR.configure]
  have hr : (classR.configure (1 : ℚ) 100 1).reduce 1 = 0 := by
    rw [reduce_configure, modf_of_nonneg (by norm_num)]
    norm_num
  have hv : (classR.configure (1 : ℚ) 100 1).value 1 = 0 := by
    simp only [classR.value, hr]
    norm_num [classR.configure]
  rw [hp]
  refine ⟨by norm_num, by norm_num, rfl, hv, ?_⟩
  rw [hv]
  norm_num

end Switch

section Simulate

variable [FloorRing α]

/-! ## The loop of simulate -/

/-- The algorithm leaves the loop time, the flag and the files alone. -/
theorem algorithm_frame (m : Libm α) (c : zvs α) (s : SimState α) :
    (c.algorithm m s).t = s.t ∧
    (c.algorithm m s).convergence_error = s.convergence_error ∧
    (c.algorithm m s).Vsec_dat = s.Vsec_dat ∧
    (c.algorithm m s).VC_dat = s.VC_dat ∧
    (c.algorithm m s).IL2_dat = s.IL2_dat ∧
    (c.algorithm m s).ISource_dat = s.ISource_dat ∧
    (c.algorithm m s).IC_dat = s.IC_dat :=
  ⟨rfl, rfl, rfl, rfl, rfl, rfl, rfl⟩

omit [FloorRing α] in
/-- The recording leaves the loop time, the flag and the currents alone. -/
theorem record_frame (c : zvs α) (s : SimState α) :
    (c.record s).t = s.t ∧
    (c.record s).convergence_error = s.convergence_error ∧
    (c.record s).I1 = s.I1 ∧ (c.record s).I2 = s.I2 ∧ (c.record s).I3 = s.I3 ∧
    (c.record s).I4 = s.I4 ∧ (c.record s).int_I3 = s.int_I3 := by
  unfold zvs.record
  split_ifs <;> exact ⟨rfl, rfl, rfl, rfl, rfl, rfl, rfl⟩

/-- A step does not change the loop time. -/
theorem step_t (m : Libm α) (c : zvs α) (s : SimState α) : (c.step m s).t = s.t := by
  unfold zvs.step
  rw [(record_frame c _).1]
  rfl

/-- A step does not change the flag. -/
theorem step_convergence_error (m : Libm α) (c : zvs α) (s : SimState α) :
    (c.step m s).convergence_error = s.convergence_error := by
  unfold zvs.step
  rw [(record_frame c _).2.1]
  rfl

/-- Unfolding `loop_head` at a successor, from the outside. -/
theorem loop_head_succ (m : Libm α) (c : zvs α) (s : SimState α) (k : ℕ) :
    c.loop_head m s (k + 1) = c.next (c.step m (c.loop_head m s k)) := by
  unfold zvs.loop_head
  rw [Function.iterate_succ_apply']

/-- Unfolding `loop_head` at a successor, from the inside. -/
theorem loop_head_succ_inner (m : Libm α) (c : zvs α) (s : SimState α) (k : ℕ) :
    c.loop_head m s (k + 1) = c.loop_head m (c.next (c.step m s)) k := by
  unfold zvs.loop_head
  rw [Function.iterate_succ_apply]

/-- The loop time on entry to step `k`. -/
theorem loop_head_t (m : Libm α) (c : zvs α) (s : SimState α) (k : ℕ) :
    (c.loop_head m s k).t = s.t + k * c.delta_t := by
  induction k with
  | zero => simp [zvs.loop_head]
  | succ k ih =>
    rw [loop_head_succ]
    show (c.step m (c.loop_head m s k)).t + c.delta_t = _
    rw [step_t, ih]
    push_cast
    ring

/-- The flag on entry to step `k`. -/
theorem loop_head_convergence_error (m : Libm α) (c : zvs α) (s : SimState α) (k : ℕ) :
    (c.loop_head m s k).convergence_error = s.convergence_error := by
  induction k with
  | zero => rfl
  | succ k ih =>
    rw [loop_head_succ]
    show (c.step m (c.loop_head m s k)).convergence_error = _
    rw [step_convergence_error, ih]

/-- The trace entries of the first `n` steps of a loop entered with state `s`. -/
theorem range_map_shift (m : Libm α) (c : zvs α) (s : SimState α) (n : ℕ) :
    (List.range (n + 1)).map (fun k => (c.loop_head m s k, c.step m (c.loop_head m s k))) =
      (s, c.step m s) :: (List.range n).map (fun k =>
        (c.loop_head m (c.next (c.step m s)) k,
          c.step m (c.loop_head m (c.next (c.step m s)) k))) := by
  rw [List.range_succ_eq_map, List.map_cons, List.map_map]
  congr 1

/-- What a finished loop has done: it has run the steps `0, ..., n - 1` for some `n`, all
of them entered with the loop condition true and all but possibly the last without
divergence; then it has either found the loop condition false, or taken the `break` at
the last step. -/
theorem simulate_loop_some (m : Libm α) (c : zvs α) :
    ∀ (fuel : ℕ) (s : SimState α) (trace : List (SimState α × SimState α))
      (r : SimState α) (trace' : List (SimState α × SimState α)),
      c.simulate_loop m fuel s trace = some (r, trace') →
      ∃ n : ℕ,
        trace' = trace ++ (List.range n).map
          (fun k => (c.loop_head m s k, c.step m (c.loop_head m s k))) ∧
        (∀ k, k < n → (c.loop_head m s k).t < c.t_total) ∧
        (∀ k, k + 1 < n → diverged m (c.step m (c.loop_head m s k)).I1 = false) ∧
        ((r = c.loop_head m s n ∧ ¬ (c.loop_head m s n).t < c.t_total ∧
            ∀ k, k < n → diverged m (c.step m (c.loop_head m s k)).I1 = false) ∨
          (∃ j, n = j + 1 ∧ diverged m (c.step m (c.loop_head m s j)).I1 = true ∧
            r = { c.step m (c.loop_head m s j) with convergence_error := true })) := by
  intro fuel
  induction fuel with
  | zero =>
    intro s trace r trace' h
    exact absurd h (by simp [zvs.simulate_loop])
  | succ fuel ih =>
    intro s trace r trace' h
    rw [zvs.simulate_loop] at h
    by_cases hc : s.t < c.t_total
    · rw [if_pos hc] at h
      by_cases hd : diverged m (c.step m s).I1 = true
      · simp only [hd, if_true, Option.some.injEq, Prod.mk.injEq] at h
        refine ⟨1, ?_, ?_, ?_, Or.inr ⟨0, rfl, hd, h.1.symm⟩⟩
        · rw [← h.2]; rfl
        · intro k hk
          have : k = 0 := by omega
          subst this
          exact hc
        · intro k hk
          omega
      · have hd' : diverged m (c.step m s).I1 = false := by
          cases hx : diverged m (c.step m s).I1 with
          | false => rfl
          | true => exact absurd hx hd
        simp only [hd', Bool.false_eq_true, if_false] at h
        obtain ⟨n, h1, h2, h3, h4⟩ := ih _ _ _ _ h
        refine ⟨n + 1, ?_, ?_, ?_, ?_⟩
        · rw [h1, range_map_shift, List.append_assoc]
          rfl
        · intro k hk
          cases k with
          | zero => exact hc
          | succ k =>
            rw [loop_head_succ_inner]
            exact h2 k (by omega)
        · intro k hk
          cases k with
          | zero => exact hd'
          | succ k =>
            rw [loop_head_succ_inner]
            exact h3 k (by omega)
        · rcases h4 with ⟨e, hn, hall⟩ | ⟨j, hj, hdj, e⟩
          · left
            refine ⟨by rw [loop_head_succ_inner]; exact e,
              by rw [loop_head_succ_inner]; exact hn, ?_⟩
            intro k hk
            cases k with
            | zero => exact hd'
            | succ k =>
              rw [loop_head_succ_inner]
              exact hall k (by omega)
          · right
            refine ⟨j + 1, by omega, ?_, ?_⟩
            · rw [loop_head_succ_inner]; exact hdj
            · rw [loop_head_succ_inner]; exact e
    · rw [if_neg hc] at h
      simp only [Option.some.injEq, Prod.mk.injEq] at h
      refine ⟨0, ?_, ?_, ?_, Or.inl ⟨h.1.symm, hc, ?_⟩⟩
      · rw [← h.2]; simp
      · intro k hk; omega
      · intro k hk; omega
      · intro k hk; omega

/-- The loop ends within the fuel that covers the remaining time. -/
theorem simulate_loop_isSome (m : Libm α) (c : zvs α) :
    ∀ (fuel : ℕ) (s : SimState α) (trace : List (SimState α × SimState α)),
      c.t_total - s.t ≤ fuel * c.delta_t →
      (c.simulate_loop m (fuel + 1) s trace).isSome = true := by
  intro fuel
  induction fuel with
  | zero =>
    intro s trace h
    have hc : ¬ s.t < c.t_total := by
      simp only [Nat.cast_zero, zero_mul] at h
      linarith
    rw [zvs.simulate_loop, if_neg hc]
    rfl
  | succ fuel ih =>
    intro s trace h
    rw [zvs.simulate_loop]
    by_cases hc : s.t < c.t_total
    · rw [if_pos hc]
      by_cases hd : diverged m (c.step m s).I1 = true
      · simp only [hd, if_true]; rfl
      · simp only [hd, if_false]
        apply ih
        show c.t_total - ((c.step m s).t + c.delta_t) ≤ _
        rw [step_t]
        push_cast at h
        linarith
    · rw [if_neg hc]; rfl


omit [FloorRing α] in
/-- The test of line 221, spelled out. -/
theorem diverged_iff (m : Libm α) (x : α) :
    diverged m x = true ↔ (m.isfinite x = false ∨ |x| > 1e10) := by
  unfold diverged
  cases m.isfinite x <;> simp

/-- Step `k` is entered exactly when `k` is below the ceiling of `t_total / delta_t`. -/
theorem loop_condition_iff (m : Libm α) (c : zvs α) (hdt : 0 < c.delta_t) (k : ℕ) :
    (c.loop_head m SimState.init k).t < c.t_total ↔ k < ⌈c.t_total / c.delta_t⌉₊ := by
  rw [loop_head_t, Nat.lt_ceil, lt_div_iff₀ hdt]
  simp [SimState.init]

/-- A run of `simulate` with a positive time step and enough fuel: it executes the steps
`0, ..., n - 1` for some `n` not above the ceiling of `t_total / delta_t`, and either all
of these are free of divergence, `n` is that ceiling and the final state is the one on
entry to step `n`, or the last one diverges and the final state is its state with the flag
set. -/
theorem simulate_run (m : Libm α) (c : zvs α) (hdt : 0 < c.delta_t) (fuel : ℕ)
    (hfuel : ⌈c.t_total / c.delta_t⌉₊ < fuel) :
    ∃ (n : ℕ) (r : SimState α),
      c.simulate m fuel = some (r, (List.range n).map (fun k =>
        (c.loop_head m SimState.init k, c.step m (c.loop_head m SimState.init k)))) ∧
      n ≤ ⌈c.t_total / c.delta_t⌉₊ ∧
      (∀ k, k + 1 < n → diverged m (c.step m (c.loop_head m SimState.init k)).I1 = false) ∧
      ((n = ⌈c.t_total / c.delta_t⌉₊ ∧ r = c.loop_head m SimState.init n ∧
          ∀ k, k < n → diverged m (c.step m (c.loop_head m SimState.init k)).I1 = false) ∨
        (∃ j, n = j + 1 ∧ diverged m (c.step m (c.loop_head m SimState.init j)).I1 = true ∧
          r = { c.step m (c.loop_head m SimState.init j) with convergence_error := true })) := by
  obtain ⟨f, rfl⟩ : ∃ f, fuel = f + 1 := ⟨fuel - 1, by omega⟩
  have hsome := simulate_loop_isSome m c f SimState.init [] (by
    have h1 : c.t_total / c.delta_t ≤ (⌈c.t_total / c.delta_t⌉₊ : α) := Nat.le_ceil _
    have h2 : ((⌈c.t_total / c.delta_t⌉₊ : ℕ) : α) ≤ (f : α) := by
      exact_mod_cast Nat.lt_succ_iff.mp hfuel
    have h3 : c.t_total ≤ f * c.delta_t := by
      rw [← div_le_iff₀ hdt]
      exact h1.trans h2
    simpa [SimState.init] using h3)
  obtain ⟨⟨r, trace⟩, hr⟩ := Option.isSome_iff_exists.mp hsome
  obtain ⟨n, h1, h2, h3, h4⟩ := simulate_loop_some m c _ _ _ _ _ hr
  have hn : n ≤ ⌈c.t_total / c.delta_t⌉₊ := by
    cases n with
    | zero => exact Nat.zero_le _
    | succ k => exact (loop_condition_iff m c hdt k).mp (h2 k (by omega))
  refine ⟨n, r, ?_, hn, h3, ?_⟩
  · unfold zvs.simulate
    rw [hr, h1]
    rfl
  · rcases h4 with ⟨e, hc, hall⟩ | h
    · left
      refine ⟨le_antisymm hn ?_, e, hall⟩
      by_contra hlt
      exact hc ((loop_condition_iff m c hdt n).mpr (not_le.mp hlt))
    · exact Or.inr h

/-- Inside the recording window a step appends one line to each file, made of the loop time
and of the values just computed by the algorithm. -/
theorem step_files_of_gt (m : Libm α) (c : zvs α) (s : SimState α)
    (h : c.t_total * (1.0 - c.last_perc / 100.0) < s.t) :
    (c.step m s).Vsec_dat = s.Vsec_dat ++ [(s.t, (c.algorithm m s).I4 * c.R_Sec)] ∧
    (c.step m s).VC_dat = s.VC_dat ++ [(s.t, (c.algorithm m s).int_I3 / c.C)] ∧
    (c.step m s).IL2_dat = s.IL2_dat ++ [(s.t, (c.algorithm m s).I3 - (c.algorithm m s).I2)] ∧
    (c.step m s).ISource_dat =
      s.ISource_dat ++ [(s.t, (c.algorithm m s).I1 - (c.algorithm m s).I2)] ∧
    (c.step m s).IC_dat = s.IC_dat ++ [(s.t, (c.algorithm m s).I3)] := by
  have h' : (c.algorithm m s).t > c.t_total * (1.0 - c.last_perc / 100.0) := h
  unfold zvs.step zvs.record
  rw [if_pos h']
  exact ⟨rfl, rfl, rfl, rfl, rfl⟩

/-- Outside the recording window a step leaves the five files as they were. -/
theorem step_files_of_le (m : Libm α) (c : zvs α) (s : SimState α)
    (h : s.t ≤ c.t_total * (1.0 - c.last_perc / 100.0)) :
    (c.step m s).Vsec_dat = s.Vsec_dat ∧ (c.step m s).VC_dat = s.VC_dat ∧
    (c.step m s).IL2_dat = s.IL2_dat ∧ (c.step m s).ISource_dat = s.ISource_dat ∧
    (c.step m s).IC_dat = s.IC_dat := by
  have h' : ¬ (c.algorithm m s).t > c.t_total * (1.0 - c.last_perc / 100.0) := not_lt.mpr h
  unfold zvs.step zvs.record
  rw [if_neg h']
  exact ⟨rfl, rfl, rfl, rfl, rfl⟩

/-- Without a source voltage the algorithm keeps a circuit at rest. -/
theorem algorithm_at_rest (m : Libm α) (c : zvs α) (s : SimState α) (hV : c.V = 0)
    (h : s.at_rest) : (c.algorithm m s).at_rest := by
  obtain ⟨h1, h2, h3, h4, h5, h6, h7, h8, h9, h10, h11, h12, h13⟩ := h
  simp only [SimState.at_rest, zvs.algorithm, hV, h1, h2, h3, h4, h5, h6, h7, h8, h9, h10, h11,
    h12, h13]
  norm_num

omit [FloorRing α] in
/-- The recording does not touch the electrical state. -/
theorem record_at_rest (c : zvs α) (s : SimState α) (h : s.at_rest) : (c.record s).at_rest := by
  unfold zvs.record
  split_ifs
  · exact h
  · exact h

/-- Without a source voltage the circuit is at rest on entry to every step. -/
theorem loop_head_at_rest (m : Libm α) (c : zvs α) (hV : c.V = 0) (k : ℕ) :
    (c.loop_head m SimState.init k).at_rest := by
  induction k with
  | zero => exact ⟨rfl, rfl, rfl, rfl, rfl, rfl, rfl, rfl, rfl, rfl, rfl, rfl, rfl⟩
  | succ k ih =>
    rw [loop_head_succ]
    exact record_at_rest c _ (algorithm_at_rest m c _ hV ih)

omit [FloorRing α] in
/-- When `t_total` is `N` time steps and `last_perc` comes from a count of `lp` points, the
recording threshold is the time of step `N - lp`. -/
theorem threshold_of_last_points (c : zvs α) (N lp : ℕ) (hdt : 0 < c.delta_t)
    (hN : c.t_total = N * c.delta_t) (hp : c.last_perc = 100.0 * lp / (c.t_total / c.delta_t))
    (h1 : 1 ≤ lp) (h2 : lp ≤ N) :
    c.t_total * (1.0 - c.last_perc / 100.0) = ((N - lp : ℕ) : α) * c.delta_t := by
  have hN0 : (N : α) ≠ 0 := by
    have : 0 < N := by omega
    exact_mod_cast this.ne'
  have hq : c.t_total / c.delta_t = N := by
    rw [hN]; field_simp
  rw [hp, hq, hN, Nat.cast_sub h2]
  norm_num
  field_simp
  ring

/-- The number of lines in each file on entry to step `k`, under the hypotheses of
`threshold_of_last_points`: the steps `N - lp + 1, ..., k - 1` have recorded. -/
theorem loop_head_files_length (m : Libm α) (c : zvs α) (N lp : ℕ) (hdt : 0 < c.delta_t)
    (hN : c.t_total = N * c.delta_t) (hp : c.last_perc = 100.0 * lp / (c.t_total / c.delta_t))
    (h1 : 1 ≤ lp) (h2 : lp ≤ N) (k : ℕ) :
    (c.loop_head m SimState.init k).Vsec_dat.length = k - (N - lp + 1) ∧
    (c.loop_head m SimState.init k).VC_dat.length = k - (N - lp + 1) ∧
    (c.loop_head m SimState.init k).IL2_dat.length = k - (N - lp + 1) ∧
    (c.loop_head m SimState.init k).ISource_dat.length = k - (N - lp + 1) ∧
    (c.loop_head m SimState.init k).IC_dat.length = k - (N - lp + 1) := by
  have hthr := threshold_of_last_points c N lp hdt hN hp h1 h2
  induction k with
  | zero => simp [zvs.loop_head, SimState.init]
  | succ k ih =>
    have ht : (c.loop_head m SimState.init k).t = k * c.delta_t := by
      rw [loop_head_t]; simp [SimState.init]
    rw [loop_head_succ]
    obtain ⟨i1, i2, i3, i4, i5⟩ := ih
    rcases Nat.lt_or_ge (N - lp) k with hk | hk
    · have hgt : c.t_total * (1.0 - c.last_perc / 100.0) < (c.loop_head m SimState.init k).t := by
        rw [hthr, ht]
        exact mul_lt_mul_of_pos_right (by exact_mod_cast hk) hdt
      obtain ⟨e1, e2, e3, e4, e5⟩ := step_files_of_gt m c _ hgt
      simp only [zvs.next, e1, e2, e3, e4, e5, List.length_append, List.length_singleton, i1, i2,
        i3, i4, i5]
      omega
    · have hle : (c.loop_head m SimState.init k).t ≤ c.t_total * (1.0 - c.last_perc / 100.0) := by
        rw [hthr, ht]
        exact mul_le_mul_of_nonneg_right (by exact_mod_cast hk) hdt.le
      obtain ⟨e1, e2, e3, e4, e5⟩ := step_files_of_le m c _ hle
      simp only [zvs.next, e1, e2, e3, e4, e5, i1, i2, i3, i4, i5]
      omega

/-- A run over `N` time steps with `last_perc` converted from a count of `lp` points, when
it reports no convergence error, leaves `lp - 1` lines in each file. -/
theorem simulate_sample_count (m : Libm α) (c : zvs α) (N lp : ℕ) (hdt : 0 < c.delta_t)
    (hN : c.t_total = N * c.delta_t) (hp : c.last_perc = 100.0 * lp / (c.t_total / c.delta_t))
    (h1 : 1 ≤ lp) (h2 : lp ≤ N) (fuel : ℕ) (hfuel : N < fuel) :
    ∃ (r : SimState α) (trace : List (SimState α × SimState α)),
      c.simulate m fuel = some (r, trace) ∧
      (r.convergence_error = false →
        r.Vsec_dat.length = lp - 1 ∧ r.VC_dat.length = lp - 1 ∧ r.IL2_dat.length = lp - 1 ∧
        r.ISource_dat.length = lp - 1 ∧ r.IC_dat.length = lp - 1) := by
  have hq : ⌈c.t_total / c.delta_t⌉₊ = N := by
    have : c.t_total / c.delta_t = N := by rw [hN]; field_simp
    rw [this, Nat.ceil_natCast]
  obtain ⟨n, r, hr, -, -, h4⟩ := simulate_run m c hdt fuel (by rw [hq]; exact hfuel)
  refine ⟨r, _, hr, fun hconv => ?_⟩
  rcases h4 with ⟨hn, e, -⟩ | ⟨j, -, -, e⟩
  · rw [hq] at hn
    have := loop_head_files_length m c N lp hdt hN hp h1 h2 N
    rw [e, hn]
    have hsub : N - (N - lp + 1) = lp - 1 := by omega
    rw [hsub] at this
    exact this
  · rw [e] at hconv
    exact absurd hconv (by simp)

/-- The fields of `small_run` that the loop reads. -/
theorem small_run_fields :
    small_run.delta_t = 1 ∧ small_run.t_total = 4 ∧ small_run.V = 0 ∧
      small_run.last_perc = 50 := by
  norm_num [small_run, zvs.read_parameters, zvs.configure]

/-- Fuel 5 is enough for `small_run`. -/
theorem small_run_fuel : ⌈small_run.t_total / small_run.delta_t⌉₊ < 5 := by
  rw [small_run_fields.1, small_run_fields.2.1]
  exact lt_of_le_of_lt (Nat.ceil_le.mpr (by norm_num)) (by norm_num : 4 < 5)

/-- The time step of `small_run` is positive. -/
theorem small_run_delta_t_pos : 0 < small_run.delta_t := by
  rw [small_run_fields.1]; norm_num

/-- The first step from the initial state: `I1` becomes `1.5 * delta_t * V / (L1 + L2)`. -/
theorem step_init_I1 (m : Libm α) (c : zvs α) :
    (c.step m SimState.init).I1 = 1.5 * c.delta_t * c.V / (c.L1 + c.L2) := by
  unfold zvs.step
  rw [(record_frame c _).2.2.1]
  simp only [zvs.algorithm, SimState.init]
  norm_num
  ring

/-- The fields of `hot_run` that decide its first step. -/
theorem hot_run_fields :
    hot_run.delta_t = 1 ∧ hot_run.t_total = 4 ∧ hot_run.V = 10 ^ 11 ∧ hot_run.L1 = 1 ∧
      hot_run.L2 = 1 := by
  norm_num [hot_run, zvs.read_parameters, zvs.configure]

/-- The run of `hot_run` takes the `break` at its first step, where `I1 = 7.5e10`. -/
theorem hot_run_diverges :
    ∃ (r : SimState ℚ) (trace : List (SimState ℚ × SimState ℚ)),
      hot_run.simulate Libm.rat 5 = some (r, trace) ∧ r.convergence_error = true ∧
      r.I1 = 7.5e10 ∧ trace.length = 1 := by
  obtain ⟨hdt, htot, hV, hL1, hL2⟩ := hot_run_fields
  have hI : (hot_run.step Libm.rat SimState.init).I1 = 7.5e10 := by
    rw [step_init_I1, hdt, hV, hL1, hL2]; norm_num
  have hd : diverged Libm.rat (hot_run.step Libm.rat SimState.init).I1 = true := by
    rw [hI]; norm_num [diverged, Libm.rat]
  have hc : (SimState.init : SimState ℚ).t < hot_run.t_total := by
    rw [htot]; norm_num [SimState.init]
  refine ⟨{ hot_run.step Libm.rat SimState.init with convergence_error := true },
    [(SimState.init, hot_run.step Libm.rat SimState.init)], ?_, rfl, hI, rfl⟩
  unfold zvs.simulate
  rw [zvs.simulate_loop, if_pos hc]
  simp only [hd, if_true, List.nil_append]

/-- The time step of `hot_run` is positive. -/
theorem hot_run_delta_t_pos : 0 < hot_run.delta_t := by
  rw [hot_run_fields.1]; norm_num

/-- Fuel 5 is enough for `hot_run`. -/
theorem hot_run_fuel : ⌈hot_run.t_total / hot_run.delta_t⌉₊ < 5 := by
  rw [hot_run_fields.1, hot_run_fields.2.1]
  exact lt_of_le_of_lt (Nat.ceil_le.mpr (by norm_num)) (by norm_num : 4 < 5)

/-! ## C6, C7, C8, C10: the loop of simulate -/

/-- C6: with `delta_t > 0` and enough fuel, `zvs::simulate` returns
`convergence_error = true` if and only if at some executed step the freshly updated `I1`
is non-finite or exceeds `1e10` in absolute value.  A step where that happens is the last
executed one and the final state (files included) is the state of that step with the flag
set; when the flag is returned false all the steps up to `t_total` have been executed. -/
theorem simulate_convergence_error (m : Libm α) (c : zvs α) (hdt : 0 < c.delta_t) (fuel : ℕ)
    (hfuel : ⌈c.t_total / c.delta_t⌉₊ < fuel) :
    ∃ (r : SimState α) (trace : List (SimState α × SimState α)),
      c.simulate m fuel = some (r, trace) ∧
      (∀ e ∈ trace, e.2.I1 = (c.algorithm m e.1).I1) ∧
      (r.convergence_error = true ↔
        ∃ e ∈ trace, m.isfinite e.2.I1 = false ∨ |e.2.I1| > 1e10) ∧
      (∀ (k : ℕ) (hk : k < trace.length),
        (m.isfinite (trace.get ⟨k, hk⟩).2.I1 = false ∨ |(trace.get ⟨k, hk⟩).2.I1| > 1e10) →
          k + 1 = trace.length ∧
            r = { (trace.get ⟨k, hk⟩).2 with convergence_error := true }) ∧
      (r.convergence_error = false → trace.length = ⌈c.t_total / c.delta_t⌉₊) := by
  obtain ⟨n, r, hr, -, h3, h4⟩ := simulate_run m c hdt fuel hfuel
  have hfalse : ∀ k, (c.loop_head m SimState.init k).convergence_error = false := fun k => by
    rw [loop_head_convergence_error]; rfl
  have hlast : ∀ (k : ℕ) (hk : k < ((List.range n).map (fun k =>
        (c.loop_head m SimState.init k, c.step m (c.loop_head m SimState.init k)))).length),
      (m.isfinite (((List.range n).map (fun k => (c.loop_head m SimState.init k,
          c.step m (c.loop_head m SimState.init k)))).get ⟨k, hk⟩).2.I1 = false ∨
        |(((List.range n).map (fun k => (c.loop_head m SimState.init k,
          c.step m (c.loop_head m SimState.init k)))).get ⟨k, hk⟩).2.I1| > 1e10) →
      k + 1 = n ∧ diverged m (c.step m (c.loop_head m SimState.init k)).I1 = true := by
    intro k hk hdiv
    have hk' : k < n := by simpa using hk
    simp only [List.get_eq_getElem, List.getElem_map, List.getElem_range] at hdiv
    have hd := (diverged_iff m _).mpr hdiv
    refine ⟨?_, hd⟩
    by_contra hne
    have := h3 k (by omega)
    rw [this] at hd
    exact absurd hd (by simp)
  refine ⟨r, _, hr, ?_, ?_, ?_, ?_⟩
  · intro e he
    obtain ⟨k, -, rfl⟩ := List.mem_map.mp he
    show (c.record (c.algorithm m _)).I1 = _
    rw [(record_frame c _).2.2.1]
  · rcases h4 with ⟨-, e, hall⟩ | ⟨j, hj, hdj, e⟩
    · constructor
      · intro h
        rw [e, hfalse] at h
        exact absurd h (by simp)
      · rintro ⟨x, hx, hdiv⟩
        obtain ⟨k, hk, rfl⟩ := List.mem_map.mp hx
        have := hall k (List.mem_range.mp hk)
        rw [(diverged_iff m _).mpr hdiv] at this
        exact absurd this (by simp)
    · constructor
      · intro _
        refine ⟨(c.loop_head m SimState.init j, c.step m (c.loop_head m SimState.init j)),
          List.mem_map.mpr ⟨j, List.mem_range.mpr (by omega), rfl⟩, (diverged_iff m _).mp hdj⟩
      · intro _
        rw [e]
  · intro k hk hdiv
    obtain ⟨hkn, -⟩ := hlast k hk hdiv
    refine ⟨by simpa using hkn, ?_⟩
    rcases h4 with ⟨-, -, hall⟩ | ⟨j, hj, -, e⟩
    · have hk' : k < n := by omega
      have := hall k hk'
      rw [(hlast k hk hdiv).2] at this
      exact absurd this (by simp)
    · have : k = j := by omega
      subst this
      simp only [List.get_eq_getElem, List.getElem_map, List.getElem_range]
      exact e
  · intro hconv
    rcases h4 with ⟨e, -, -⟩ | ⟨j, -, -, e⟩
    · simpa using e
    · rw [e] at hconv
      exact absurd hconv (by simp)

/-- Witness of C6: the run of `hot_run`, which diverges at its first step, with fuel 5. -/
theorem simulate_convergence_error_witness :
    0 < hot_run.delta_t ∧ ⌈hot_run.t_total / hot_run.delta_t⌉₊ < 5 ∧
    ∃ (r : SimState ℚ) (trace : List (SimState ℚ × SimState ℚ)),
      hot_run.simulate Libm.rat 5 = some (r, trace) ∧
      (∀ e ∈ trace, e.2.I1 = (hot_run.algorithm Libm.rat e.1).I1) ∧
      (r.convergence_error = true ↔
        ∃ e ∈ trace, Libm.rat.isfinite e.2.I1 = false ∨ |e.2.I1| > 1e10) ∧
      (∀ (k : ℕ) (hk : k < trace.length),
        (Libm.rat.isfinite (trace.get ⟨k, hk⟩).2.I1 = false ∨
            |(trace.get ⟨k, hk⟩).2.I1| > 1e10) →
          k + 1 = trace.length ∧
            r = { (trace.get ⟨k, hk⟩).2 with convergence_error := true }) ∧
      (r.convergence_error = false →
        trace.length = ⌈hot_run.t_total / hot_run.delta_t⌉₊) :=
  ⟨hot_run_delta_t_pos, hot_run_fuel,
    simulate_convergence_error Libm.rat hot_run hot_run_delta_t_pos 5 hot_run_fuel⟩

/-- C7: in a run of `zvs::simulate` (with `delta_t > 0` and enough fuel) the first step is
entered with the initial state and every later step with the state left by the step before
it, its time advanced by `delta_t`.  A step entered at loop time `t` appends exactly one
sample, with time `t`, to each of the five files when `t > t_total*(1 - last_perc/100)`, and
leaves all five files unchanged when `t ≤ t_total*(1 - last_perc/100)`. -/
theorem simulate_recording_window (m : Libm α) (c : zvs α) (hdt : 0 < c.delta_t) (fuel : ℕ)
    (hfuel : ⌈c.t_total / c.delta_t⌉₊ < fuel) :
    ∃ (r : SimState α) (trace : List (SimState α × SimState α)),
      c.simulate m fuel = some (r, trace) ∧
      (∀ h : 0 < trace.length, (trace.get ⟨0, h⟩).1 = SimState.init) ∧
      (∀ (k : ℕ) (hk : k + 1 < trace.length),
        (trace.get ⟨k + 1, hk⟩).1 = c.next (trace.get ⟨k, Nat.lt_of_succ_lt hk⟩).2) ∧
      (∀ e ∈ trace,
        (c.t_total * (1.0 - c.last_perc / 100.0) < e.1.t →
          (∃ v, e.2.Vsec_dat = e.1.Vsec_dat ++ [(e.1.t, v)]) ∧
          (∃ v, e.2.VC_dat = e.1.VC_dat ++ [(e.1.t, v)]) ∧
          (∃ v, e.2.IL2_dat = e.1.IL2_dat ++ [(e.1.t, v)]) ∧
          (∃ v, e.2.ISource_dat = e.1.ISource_dat ++ [(e.1.t, v)]) ∧
          (∃ v, e.2.IC_dat = e.1.IC_dat ++ [(e.1.t, v)])) ∧
        (e.1.t ≤ c.t_total * (1.0 - c.last_perc / 100.0) →
          e.2.Vsec_dat = e.1.Vsec_dat ∧ e.2.VC_dat = e.1.VC_dat ∧
          e.2.IL2_dat = e.1.IL2_dat ∧ e.2.ISource_dat = e.1.ISource_dat ∧
          e.2.IC_dat = e.1.IC_dat)) := by
  obtain ⟨n, r, hr, -, -, -⟩ := simulate_run m c hdt fuel hfuel
  refine ⟨r, _, hr, ?_, ?_, ?_⟩
  · intro h
    simp only [List.get_eq_getElem, List.getElem_map, List.getElem_range]
    rfl
  · intro k hk
    simp only [List.get_eq_getElem, List.getElem_map, List.getElem_range]
    exact loop_head_succ m c SimState.init k
  · intro e he
    obtain ⟨k, -, rfl⟩ := List.mem_map.mp he
    constructor
    · intro h
      obtain ⟨h1, h2, h3, h4, h5⟩ := step_files_of_gt m c _ h
      exact ⟨⟨_, h1⟩, ⟨_, h2⟩, ⟨_, h3⟩, ⟨_, h4⟩, ⟨_, h5⟩⟩
    · intro h
      exact step_files_of_le m c _ h

/-- Witness of C7: the run of `small_run` with fuel 5. -/
theorem simulate_recording_window_witness :
    0 < small_run.delta_t ∧ ⌈small_run.t_total / small_run.delta_t⌉₊ < 5 ∧
    ∃ (r : SimState ℚ) (trace : List (SimState ℚ × SimState ℚ)),
      small_run.simulate Libm.rat 5 = some (r, trace) ∧
      (∀ h : 0 < trace.length, (trace.get ⟨0, h⟩).1 = SimState.init) ∧
      (∀ (k : ℕ) (hk : k + 1 < trace.length),
        (trace.get ⟨k + 1, hk⟩).1 = small_run.next (trace.get ⟨k, Nat.lt_of_succ_lt hk⟩).2) ∧
      (∀ e ∈ trace,
        (small_run.t_total * (1.0 - small_run.last_perc / 100.0) < e.1.t →
          (∃ v, e.2.Vsec_dat = e.1.Vsec_dat ++ [(e.1.t, v)]) ∧
          (∃ v, e.2.VC_dat = e.1.VC_dat ++ [(e.1.t, v)]) ∧
          (∃ v, e.2.IL2_dat = e.1.IL2_dat ++ [(e.1.t, v)]) ∧
          (∃ v, e.2.ISource_dat = e.1.ISource_dat ++ [(e.1.t, v)]) ∧
          (∃ v, e.2.IC_dat = e.1.IC_dat ++ [(e.1.t, v)])) ∧
        (e.1.t ≤ small_run.t_total * (1.0 - small_run.last_perc / 100.0) →
          e.2.Vsec_dat = e.1.Vsec_dat ∧ e.2.VC_dat = e.1.VC_dat ∧
          e.2.IL2_dat = e.1.IL2_dat ∧ e.2.ISource_dat = e.1.ISource_dat ∧
          e.2.IC_dat = e.1.IC_dat)) :=
  ⟨small_run_delta_t_pos, small_run_fuel,
    simulate_recording_window Libm.rat small_run small_run_delta_t_pos 5 small_run_fuel⟩

/-- C8 fails on the code: with `delta_t = 1`, `t_total = 4` (so `N = 4` steps, at times 0, 1,
2, 3) and `last_points = 2`, `read_parameters` sets `last_perc = 50`, the threshold is
`4*(1 - 50/100) = 2`, and the run, which reports no convergence error, records only the
step at time 3: each of the five files holds one line, not two. -/
theorem last_points_off_by_one :
    small_run = zvs.read_parameters Libm.rat 1 1 1 0 1 1 4 1 1 1 2 ∧
    small_run.last_perc = 50 ∧
    ∃ (r : SimState ℚ) (trace : List (SimState ℚ × SimState ℚ)),
      small_run.simulate Libm.rat 5 = some (r, trace) ∧
      trace.length = 4 ∧
      r.convergence_error = false ∧
      r.Vsec_dat = [(3, 0)] ∧ r.VC_dat.length = 1 ∧ r.IL2_dat.length = 1 ∧
      r.ISource_dat.length = 1 ∧ r.IC_dat.length = 1 := by
  obtain ⟨hdt, htot, hV, hperc⟩ := small_run_fields
  have hN : small_run.t_total = ((4 : ℕ) : ℚ) * small_run.delta_t := by
    rw [hdt, htot]; norm_num
  have hp : small_run.last_perc =
      100.0 * ((2 : ℕ) : ℚ) / (small_run.t_total / small_run.delta_t) := by
    rw [hdt, htot, hperc]; norm_num
  have hq : ⌈small_run.t_total / small_run.delta_t⌉₊ = 4 := by
    rw [hdt, htot]
    norm_num
  have hlen := loop_head_files_length Libm.rat small_run 4 2 small_run_delta_t_pos hN hp
    (by norm_num) (by norm_num)
  obtain ⟨n, r, hr, -, -, h4⟩ :=
    simulate_run Libm.rat small_run small_run_delta_t_pos 5 small_run_fuel
  refine ⟨rfl, hperc, r, _, hr, ?_⟩
  rcases h4 with ⟨hn, e, -⟩ | ⟨j, -, hd, -⟩
  · rw [hq] at hn
    subst hn
    obtain ⟨l1, l2, l3, l4, l5⟩ := hlen 4
    refine ⟨by simp, ?_, ?_, by rw [e]; exact l2, by rw [e]; exact l3, by rw [e]; exact l4,
      by rw [e]; exact l5⟩
    · rw [e, loop_head_convergence_error]; rfl
    · have h3 := (hlen 3).1
      have ht : (small_run.loop_head Libm.rat SimState.init 3).t = 3 := by
        rw [loop_head_t, hdt]; norm_num [SimState.init]
      have hgt : small_run.t_total * (1.0 - small_run.last_perc / 100.0) <
          (small_run.loop_head Libm.rat SimState.init 3).t := by
        rw [ht, htot, hperc]; norm_num
      have hrest := algorithm_at_rest Libm.rat small_run _ hV
        (loop_head_at_rest Libm.rat small_run hV 3)
      rw [e, loop_head_succ]
      show (small_run.step Libm.rat (small_run.loop_head Libm.rat SimState.init 3)).Vsec_dat = _
      rw [(step_files_of_gt Libm.rat small_run _ hgt).1, ht, hrest.2.2.2.1,
        List.eq_nil_of_length_eq_zero h3]
      simp
  · have hrest := loop_head_at_rest Libm.rat small_run hV j
    have h0 : (small_run.step Libm.rat (small_run.loop_head Libm.rat SimState.init j)).I1 = 0 :=
      (record_at_rest small_run _ (algorithm_at_rest Libm.rat small_run _ hV hrest)).1
    rw [h0] at hd
    exact absurd hd (by norm_num [diverged, Libm.rat])

/-- C10: with `delta_t > 0` and enough fuel the loop of `zvs::simulate` ends.  The number
of executed steps is at most the ceiling of `t_total / delta_t` (none when
`t_total ≤ 0`), step `k` runs at loop time `k * delta_t`, which is below `t_total`, and when
the run reports no convergence error the number of steps is exactly that ceiling. -/
theorem simulate_terminates (m : Libm α) (c : zvs α) (hdt : 0 < c.delta_t) (fuel : ℕ)
    (hfuel : ⌈c.t_total / c.delta_t⌉₊ < fuel) :
    ∃ (r : SimState α) (trace : List (SimState α × SimState α)),
      c.simulate m fuel = some (r, trace) ∧
      trace.length ≤ ⌈c.t_total / c.delta_t⌉₊ ∧
      (c.t_total ≤ 0 → trace = []) ∧
      (∀ (k : ℕ) (hk : k < trace.length),
        (trace.get ⟨k, hk⟩).1.t = k * c.delta_t ∧ (trace.get ⟨k, hk⟩).1.t < c.t_total) ∧
      (r.convergence_error = false → trace.length = ⌈c.t_total / c.delta_t⌉₊) := by
  obtain ⟨n, r, hr, hn, -, h4⟩ := simulate_run m c hdt fuel hfuel
  refine ⟨r, _, hr, by simpa using hn, ?_, ?_, ?_⟩
  · intro ht
    have h0 : ⌈c.t_total / c.delta_t⌉₊ = 0 :=
      Nat.ceil_eq_zero.mpr (div_nonpos_of_nonpos_of_nonneg ht hdt.le)
    have : n = 0 := by omega
    subst this
    rfl
  · intro k hk
    have hk' : k < n := by simpa using hk
    have ht : (c.loop_head m SimState.init k).t = k * c.delta_t := by
      rw [loop_head_t]
      simp [SimState.init]
    simp only [List.get_eq_getElem, List.getElem_map, List.getElem_range]
    refine ⟨ht, ?_⟩
    exact (loop_condition_iff m c hdt k).mpr (lt_of_lt_of_le hk' hn)
  · intro hconv
    rcases h4 with ⟨e, -, -⟩ | ⟨j, -, -, e⟩
    · simpa using e
    · rw [e] at hconv
      exact absurd hconv (by simp)

/-- Witness of C10: four steps of size 1 up to `t_total = 4`, with fuel 5. -/
theorem simulate_terminates_witness :
    0 < small_run.delta_t ∧ ⌈small_run.t_total / small_run.delta_t⌉₊ < 5 ∧
    ∃ (r : SimState ℚ) (trace : List (SimState ℚ × SimState ℚ)),
      small_run.simulate Libm.rat 5 = some (r, trace) ∧
      trace.length ≤ ⌈small_run.t_total / small_run.delta_t⌉₊ ∧
      (small_run.t_total ≤ 0 → trace = []) ∧
      (∀ (k : ℕ) (hk : k < trace.length),
        (trace.get ⟨k, hk⟩).1.t = k * small_run.delta_t ∧
          (trace.get ⟨k, hk⟩).1.t < small_run.t_total) ∧
      (r.convergence_error = false →
        trace.length = ⌈small_run.t_total / small_run.delta_t⌉₊) :=
  have h : (0 : ℚ) < small_run.delta_t := by rw [small_run_fields.1]; norm_num
  ⟨h, small_run_fuel, simulate_terminates Libm.rat small_run h 5 small_run_fuel⟩

end Simulate

/-! ## C11, C15, C19: the parameter file, the retry invariants, the breakpoints -/

/-- The adjustments change no field other than `L1` and `delta_t`. -/
theorem main_adjust_frame (c : zvs α) :
    (main_adjust c).1 =
      { c with L1 := (main_adjust c).1.L1, delta_t := (main_adjust c).1.delta_t } := by
  rcases lt_or_le c.L1 (1 / 2) with h1 | h1
  · rw [main_adjust_of_lt_half c h1]
  · rcases lt_or_le c.L1 1 with h2 | h2 <;> rcases le_or_lt c.delta_t lit_100e_9 with h3 | h3
    · rw [main_adjust_of_half_le_of_le c h1 h2 h3]
    · rw [main_adjust_of_half_le_of_gt c h1 h2 h3]
    · rw [main_adjust_of_one_le_of_le c h2 h3]
    · rw [main_adjust_of_one_le_of_gt c h2 h3]

/-- C11 (as amended): `zvs::save_parameters` writes ten labeled lines, with distinct labels,
carrying in this order the current values of `L1`, `L2`, `L4`, `V`, `C`, `delta_t`,
`t_total`, `slope_R`, `R` and `R_Sec` (so also the `L1` and `delta_t` left by a retry);
`last_perc` has no line: the file does not depend on it. -/
theorem save_parameters_lines (c : zvs α) :
    c.save_parameters.map Prod.snd =
      [c.L1, c.L2, c.L4, c.V, c.C, c.delta_t, c.t_total, c.slope_R, c.R, c.R_Sec] ∧
    (c.save_parameters.map Prod.fst).Nodup ∧
    (main_retry c).1.save_parameters.map Prod.snd =
      [(main_retry c).1.L1, c.L2, c.L4, c.V, c.C, (main_retry c).1.delta_t, c.t_total,
        c.slope_R, c.R, c.R_Sec] ∧
    ∀ x : α, ({ c with last_perc := x } : zvs α).save_parameters = c.save_parameters := by
  refine ⟨rfl, by simp [zvs.save_parameters], ?_, fun _ => rfl⟩
  rw [main_retry_fst]
  conv_lhs => rw [main_adjust_frame c]
  rfl

/-- C11 (as stated) fails: for the sample circuit, whose `last_perc` is 1, the file has ten
lines, not eleven, none of them carries the value of `last_perc`, and changing `last_perc`
leaves the file as it is. -/
theorem save_parameters_omits_last_perc :
    (scenario 0.1 1e-9).last_perc = 1 ∧
    (scenario 0.1 1e-9).save_parameters.length = 10 ∧
    (∀ line ∈ (scenario 0.1 1e-9).save_parameters, line.2 ≠ (scenario 0.1 1e-9).last_perc) ∧
    ({ scenario 0.1 1e-9 with last_perc := 2 } : zvs ℚ).save_parameters =
      (scenario 0.1 1e-9).save_parameters := by
  refine ⟨by norm_num [scenario, zvs.configure], rfl, ?_, rfl⟩
  intro line hl
  simp only [zvs.save_parameters, List.mem_cons, List.mem_singleton, List.not_mem_nil,
    or_false] at hl
  rcases hl with h | h | h | h | h | h | h | h | h | h <;> rw [h] <;>
    norm_num [scenario, zvs.configure]

/-- One pass of the adjustments on a circuit with positive `L1`: `L1` stays positive and
does not decrease, `delta_t` does not increase, and `delta_t` stays above any bound of at
most half the literal `100e-9` that it was above. -/
theorem main_adjust_monotone (c : zvs α) (hL : 0 < c.L1) :
    0 < (main_adjust c).1.L1 ∧ c.L1 ≤ (main_adjust c).1.L1 ∧
    (main_adjust c).1.delta_t ≤ c.delta_t ∧
    ∀ b : α, b ≤ lit_100e_9 / 2 → b ≤ c.delta_t → b ≤ (main_adjust c).1.delta_t := by
  have hpos : (0 : α) < lit_100e_9 := lit_order.2.2.1
  rcases lt_or_le c.L1 (1 / 2) with h1 | h1
  · rw [main_adjust_of_lt_half c h1]
    exact ⟨by show 0 < c.L1 * 2; linarith, by show c.L1 ≤ c.L1 * 2; linarith, le_rfl,
      fun b _ hb => hb⟩
  · rcases lt_or_le c.L1 1 with h2 | h2 <;> rcases le_or_lt c.delta_t lit_100e_9 with h3 | h3
    · rw [main_adjust_of_half_le_of_le c h1 h2 h3]
      exact ⟨by show 0 < c.L1 * 2 + 2; linarith, by show c.L1 ≤ c.L1 * 2 + 2; linarith, le_rfl,
        fun b _ hb => hb⟩
    · rw [main_adjust_of_half_le_of_gt c h1 h2 h3]
      refine ⟨by show 0 < c.L1 * 2; linarith, by show c.L1 ≤ c.L1 * 2; linarith,
        by show c.delta_t / 2 ≤ c.delta_t; linarith, fun b hb _ => ?_⟩
      show b ≤ c.delta_t / 2
      linarith
    · rw [main_adjust_of_one_le_of_le c h2 h3]
      exact ⟨by show 0 < c.L1 + 2; linarith, by show c.L1 ≤ c.L1 + 2; linarith, le_rfl,
        fun b _ hb => hb⟩
    · rw [main_adjust_of_one_le_of_gt c h2 h3]
      refine ⟨hL, le_rfl, by show c.delta_t / 2 ≤ c.delta_t; linarith, fun b hb _ => ?_⟩
      show b ≤ c.delta_t / 2
      linarith

/-- The invariants of the retry loop after any number of retries from a circuit with
positive `L1`. -/
theorem iterate_retry_invariants (c : zvs α) (hL : 0 < c.L1) (n : ℕ) :
    0 < ((fun c => (main_retry c).1)^[n] c).L1 ∧
    c.L1 ≤ ((fun c => (main_retry c).1)^[n] c).L1 ∧
    ((fun c => (main_retry c).1)^[n] c).delta_t ≤ c.delta_t ∧
    min c.delta_t (lit_100e_9 / 2) ≤ ((fun c => (main_retry c).1)^[n] c).delta_t := by
  induction n with
  | zero => exact ⟨hL, le_rfl, le_rfl, min_le_left _ _⟩
  | succ k ih =>
    obtain ⟨i1, i2, i3, i4⟩ := ih
    obtain ⟨m1, m2, m3, m4⟩ := main_adjust_monotone _ i1
    rw [Function.iterate_succ_apply', main_retry_fst]
    exact ⟨m1, i2.trans m2, m3.trans i3, m4 _ (min_le_right _ _) i4⟩

/-- A retry from `L1 ≥ 1` with a time step above the literal `100e-9` keeps `L1` and halves
the time step. -/
theorem main_retry_halves (c : zvs α) (h : 1 ≤ c.L1) (hd : lit_100e_9 < c.delta_t) :
    (main_retry c).1.L1 = c.L1 ∧ (main_retry c).1.delta_t = c.delta_t / 2 := by
  rw [main_retry_fst, main_adjust_of_one_le_of_gt c h hd]
  exact ⟨rfl, rfl⟩

/-- The first four retries of the sample circuit with `L1 = 2`, `delta_t = 1e-6` halve the
time step each time: it ends at `6.25e-8`. -/
theorem scenario_halvings :
    ((fun c => (main_retry c).1)^[4] (scenario 2 1e-6)).L1 = 2 ∧
    ((fun c => (main_retry c).1)^[4] (scenario 2 1e-6)).delta_t = 1 / 16000000 := by
  have a0 : (scenario 2 1e-6).L1 = 2 ∧ (scenario 2 1e-6).delta_t = 1 / 1000000 := by
    constructor <;> norm_num [scenario, zvs.configure]
  have a1 := main_retry_halves (scenario 2 1e-6) (by rw [a0.1]; norm_num)
    (by rw [a0.2]; norm_num [lit_100e_9])
  rw [a0.1, a0.2] at a1
  have a2 := main_retry_halves _ (by rw [a1.1]; norm_num)
    (by rw [a1.2]; norm_num [lit_100e_9])
  rw [a1.1, a1.2] at a2
  have a3 := main_retry_halves _ (by rw [a2.1]; norm_num)
    (by rw [a2.2]; norm_num [lit_100e_9])
  rw [a2.1, a2.2] at a3
  have a4 := main_retry_halves _ (by rw [a3.1]; norm_num)
    (by rw [a3.2]; norm_num [lit_100e_9])
  rw [a3.1, a3.2] at a4
  simp only [Function.iterate_succ, Function.iterate_zero, Function.comp, id]
  refine ⟨a4.1, a4.2.trans (by norm_num)⟩

/-- C15 (as amended): from a circuit with `L1 > 0`, after any number of retries `L1` has not
decreased and `delta_t` has not increased, from one retry to the next and from the start,
and `delta_t` is at least `min(dt_0, d/2)`, with `d` the value of the `double` literal
`100e-9` (so `d/2` is slightly below `50e-9`).  When the initial `delta_t` is at least the
literal `0.01e-9` (in particular when it is at least `10^-11`) no retry meets the give-up
condition or takes the `break`, and with every attempt reporting a convergence error the
retry loop exhausts every amount of fuel. -/
theorem retry_invariants (c : zvs α) (hL : 0 < c.L1) :
    (∀ n : ℕ,
      ((fun c => (main_retry c).1)^[n] c).L1 ≤ ((fun c => (main_retry c).1)^[n + 1] c).L1 ∧
      ((fun c => (main_retry c).1)^[n + 1] c).delta_t ≤
        ((fun c => (main_retry c).1)^[n] c).delta_t ∧
      c.L1 ≤ ((fun c => (main_retry c).1)^[n] c).L1 ∧
      ((fun c => (main_retry c).1)^[n] c).delta_t ≤ c.delta_t ∧
      min c.delta_t (lit_100e_9 / 2) ≤ ((fun c => (main_retry c).1)^[n] c).delta_t) ∧
    ((lit_0_01e_9 : α) < 1 / 10 ^ 11 ∧ (lit_0_01e_9 : α) ≤ lit_100e_9 / 2) ∧
    (lit_0_01e_9 ≤ c.delta_t →
      (∀ n : ℕ, ¬ (((fun c => (main_retry c).1)^[n] c).L1 > 20.0 ∧
        ((fun c => (main_retry c).1)^[n] c).delta_t < lit_0_01e_9)) ∧
      (∀ n : ℕ, (main_retry ((fun c => (main_retry c).1)^[n] c)).2.2 = false) ∧
      ∀ sim : zvs α → Bool, (∀ c, sim c = true) →
        ∀ (fuel : ℕ) (out : List (Msg α)), main_loop sim fuel c out = none) := by
  refine ⟨fun n => ?_, ⟨lit_order.2.2.2.2, lit_order.2.1⟩, fun hd => ?_⟩
  · obtain ⟨i1, i2, i3, i4⟩ := iterate_retry_invariants c hL n
    obtain ⟨-, m2, m3, -⟩ := main_adjust_monotone _ i1
    rw [Function.iterate_succ_apply', main_retry_fst]
    exact ⟨m2, m3, i2, i3, i4⟩
  · have hmin : (lit_0_01e_9 : α) ≤ min c.delta_t (lit_100e_9 / 2) := le_min hd lit_order.2.1
    have hall : ∀ n : ℕ, (lit_0_01e_9 : α) ≤ ((fun c => (main_retry c).1)^[n] c).delta_t :=
      fun n => hmin.trans (iterate_retry_invariants c hL n).2.2.2
    exact ⟨fun n h => absurd h.2 (not_lt.mpr (hall n)), fun n => main_retry_no_break _ (hall n),
      fun sim hsim fuel out => main_loop_none sim hsim fuel c out hd⟩

/-- Witness of C15 (as amended): the sample circuit with `L1 = 2`, `delta_t = 1e-6`.  Its
first four retries halve the time step down to `6.25e-8`, which is above `d/2`. -/
theorem retry_invariants_witness :
    0 < (scenario 2 1e-6).L1 ∧ (lit_0_01e_9 : ℚ) ≤ (scenario 2 1e-6).delta_t ∧
    (((fun c => (main_retry c).1)^[4] (scenario 2 1e-6)).L1 ≤
        ((fun c => (main_retry c).1)^[4 + 1] (scenario 2 1e-6)).L1 ∧
      ((fun c => (main_retry c).1)^[4 + 1] (scenario 2 1e-6)).delta_t ≤
        ((fun c => (main_retry c).1)^[4] (scenario 2 1e-6)).delta_t ∧
      (scenario 2 1e-6).L1 ≤ ((fun c => (main_retry c).1)^[4] (scenario 2 1e-6)).L1 ∧
      ((fun c => (main_retry c).1)^[4] (scenario 2 1e-6)).delta_t ≤
        (scenario 2 1e-6).delta_t ∧
      min (scenario 2 1e-6).delta_t (lit_100e_9 / 2) ≤
        ((fun c => (main_retry c).1)^[4] (scenario 2 1e-6)).delta_t) ∧
    ((scenario 2 1e-6).delta_t = 1 / 1000000 ∧
      ((fun c => (main_retry c).1)^[4] (scenario 2 1e-6)).delta_t = 1 / 16000000) ∧
    (∀ n : ℕ, (main_retry ((fun c => (main_retry c).1)^[n] (scenario 2 1e-6))).2.2 = false) ∧
    ∀ (fuel : ℕ) (out : List (Msg ℚ)),
      main_loop (fun _ => true) fuel (scenario 2 1e-6) out = none :=
  have hL : 0 < (scenario 2 1e-6).L1 := by norm_num [scenario, zvs.configure]
  have hd : (lit_0_01e_9 : ℚ) ≤ (scenario 2 1e-6).delta_t := by
    norm_num [scenario, zvs.configure, lit_0_01e_9]
  ⟨hL, hd, (retry_invariants (scenario 2 1e-6) hL).1 4,
    ⟨by norm_num [scenario, zvs.configure], scenario_halvings.2⟩,
    ((retry_invariants (scenario 2 1e-6) hL).2.2 hd).2.1,
    ((retry_invariants (scenario 2 1e-6) hL).2.2 hd).2.2 (fun _ => true) (fun _ => rfl)⟩

/-- C15 (as stated) fails at the bound `min(dt_0, 50e-9)`: with `L1 = 1` and `delta_t` the
stored value of the input `100e-9`, which exceeds the `double` literal `100e-9` of the
guard, one retry halves the time step to a value below both `dt_0` and `50e-9`. -/
theorem retry_halves_below_50e_9 :
    0 < (scenario 1 stored_100e_9).L1 ∧
    ((fun c => (main_retry c).1)^[1] (scenario 1 stored_100e_9)).delta_t = stored_100e_9 / 2 ∧
    ((fun c => (main_retry c).1)^[1] (scenario 1 stored_100e_9)).delta_t <
      min (scenario 1 stored_100e_9).delta_t 50e-9 := by
  have h : ((fun c => (main_retry c).1)^[1] (scenario 1 stored_100e_9)).delta_t =
      stored_100e_9 / 2 := by
    rw [Function.iterate_one, main_retry_fst,
      main_adjust_of_one_le_of_gt _ (by norm_num [scenario, zvs.configure])
        (by norm_num [scenario, zvs.configure, lit_100e_9, stored_100e_9])]
    norm_num [scenario, zvs.configure]
  refine ⟨by norm_num [scenario, zvs.configure], h, ?_⟩
  rw [h, lt_min_iff]
  constructor <;> norm_num [scenario, zvs.configure, stored_100e_9]

/-- C19: for `T > 0` the breakpoints computed by `classR::configure(T, slope_R, R)` satisfy
`0 < p1 < p2 < p3 < p4 = T` if and only if `0 < slope_R < 100/3`; and whatever the
arguments, the two ramps have the same duration, `p3 - p2 = p1`. -/
theorem configure_breakpoints (T_ slope_ value_ : α) :
    (0 < T_ →
      ((0 < (classR.configure T_ slope_ value_).p1 ∧
        (classR.configure T_ slope_ value_).p1 < (classR.configure T_ slope_ value_).p2 ∧
        (classR.configure T_ slope_ value_).p2 < (classR.configure T_ slope_ value_).p3 ∧
        (classR.configure T_ slope_ value_).p3 < (classR.configure T_ slope_ value_).p4 ∧
        (classR.configure T_ slope_ value_).p4 = T_) ↔
      (0 < slope_ ∧ slope_ < 100 / 3))) ∧
    (classR.configure T_ slope_ value_).p3 - (classR.configure T_ slope_ value_).p2 =
      (classR.configure T_ slope_ value_).p1 := by
  obtain ⟨e1, e2, e3, e4, -, -⟩ := configure_fields T_ slope_ value_
  rw [e1, e2, e3, e4]
  refine ⟨fun hT => ⟨?_, ?_⟩, by ring⟩
  · rintro ⟨h1, h2, -, -, -⟩
    have hs : 0 < slope_ / 100 := (mul_pos_iff_of_pos_left hT).mp h1
    have h3 : T_ * (3 * (slope_ / 100)) < T_ * 1 := by linarith
    have h4 := lt_of_mul_lt_mul_left h3 hT.le
    constructor <;> linarith
  · rintro ⟨h1, h2⟩
    have hs : 0 < T_ * (slope_ / 100) := mul_pos hT (by positivity)
    have h3 : T_ * (slope_ / 100) < T_ * (1 / 3) :=
      mul_lt_mul_of_pos_left (by linarith) hT
    refine ⟨hs, ?_, ?_, ?_, rfl⟩ <;> linarith

/-- Witness of C19: period 4, slope 10, resistance 3. -/
theorem configure_breakpoints_witness :
    (0 : ℚ) < 4 ∧ ((0 : ℚ) < 10 ∧ (10 : ℚ) < 100 / 3) ∧
    (0 < (classR.configure (4 : ℚ) 10 3).p1 ∧
      (classR.configure (4 : ℚ) 10 3).p1 < (classR.configure (4 : ℚ) 10 3).p2 ∧
      (classR.configure (4 : ℚ) 10 3).p2 < (classR.configure (4 : ℚ) 10 3).p3 ∧
      (classR.configure (4 : ℚ) 10 3).p3 < (classR.configure (4 : ℚ) 10 3).p4 ∧
      (classR.configure (4 : ℚ) 10 3).p4 = 4) :=
  ⟨by norm_num, ⟨by norm_num, by norm_num⟩,
    ((configure_breakpoints (4 : ℚ) 10 3).1 (by norm_num)).mpr ⟨by norm_num, by norm_num⟩⟩

section Integration

variable [FloorRing α]

/-! ## C16: the range of the switch resistance -/

/-- A time in `(-T, 0)` is its own reduced time: `modf` keeps the sign. -/
theorem reduce_eq_self_of_neg (T_ slope_ value_ t : α) (hT : 0 < T_) (ht : -T_ < t)
    (ht' : t < 0) : (classR.configure T_ slope_ value_).reduce t = t := by
  have hneg : t / T_ < 0 := div_neg_of_neg_of_pos ht' hT
  have hgt : -1 < t / T_ := by
    rw [lt_div_iff₀ hT]; linarith
  have hc : ⌈t / T_⌉ = 0 := by
    rw [Int.ceil_eq_iff]
    constructor
    · simpa using hgt
    · simpa using hneg.le
  rw [reduce_configure, modf_of_neg hneg, hc]
  field_simp

/-- The value of a configured switch at a non-negative time lies between 0 and the maximum
resistance. -/
theorem value_mem_of_nonneg (T_ slope_ value_ t : α) (hT : 0 < T_) (hs : 0 < slope_)
    (hR : 0 ≤ value_) (ht : 0 ≤ t) :
    0 ≤ (classR.configure T_ slope_ value_).value t ∧
      (classR.configure T_ slope_ value_).value t ≤ value_ := by
  obtain ⟨e1, e2, e3, -, -, e6⟩ := configure_fields T_ slope_ value_
  have hb := value_branches (classR.configure T_ slope_ value_) t
  rw [e6] at hb
  obtain ⟨hm0, -⟩ := reduce_mem T_ slope_ value_ t hT ht
  have hp1 : 0 < (classR.configure T_ slope_ value_).p1 := by
    rw [e1]; exact mul_pos hT (by positivity)
  have hw : (classR.configure T_ slope_ value_).p3 - (classR.configure T_ slope_ value_).p2 =
      (classR.configure T_ slope_ value_).p1 := by
    rw [e1, e2, e3]; ring
  rcases le_or_lt ((classR.configure T_ slope_ value_).reduce t)
    (classR.configure T_ slope_ value_).p1 with h1 | h1
  · rw [hb.1 h1, mul_div_assoc]
    have hq0 : 0 ≤ (classR.configure T_ slope_ value_).reduce t /
        (classR.configure T_ slope_ value_).p1 := div_nonneg hm0 hp1.le
    have hq1 : (classR.configure T_ slope_ value_).reduce t /
        (classR.configure T_ slope_ value_).p1 ≤ 1 := (div_le_one hp1).mpr h1
    exact ⟨mul_nonneg hR hq0, mul_le_of_le_one_right hR hq1⟩
  · rcases le_or_lt ((classR.configure T_ slope_ value_).reduce t)
      (classR.configure T_ slope_ value_).p2 with h2 | h2
    · rw [hb.2.1 h1 h2]
      exact ⟨hR, le_rfl⟩
    · rcases le_or_lt ((classR.configure T_ slope_ value_).reduce t)
        (classR.configure T_ slope_ value_).p3 with h3 | h3
      · rw [hb.2.2.1 h1 h2 h3, hw]
        have hq0 : 0 ≤ ((classR.configure T_ slope_ value_).reduce t -
            (classR.configure T_ slope_ value_).p2) / (classR.configure T_ slope_ value_).p1 :=
          div_nonneg (by linarith) hp1.le
        have hq1 : ((classR.configure T_ slope_ value_).reduce t -
            (classR.configure T_ slope_ value_).p2) / (classR.configure T_ slope_ value_).p1 ≤ 1 :=
          (div_le_one hp1).mpr (by linarith)
        exact ⟨mul_nonneg hR (by linarith), mul_le_of_le_one_right hR (by linarith)⟩
      · rw [hb.2.2.2 h1 h2 h3]
        exact ⟨le_rfl, hR⟩

/-- C16: for `T > 0`, `slope_R > 0`, `R ≥ 0` and every `t ≥ 0`, `R1 = classR::value(t)` and
`R2 = R - R1` both lie in `[0, R]` and sum to `R`; this covers the loop time of every step
of `zvs::simulate` when `delta_t ≥ 0`.  For `R > 0` the value is negative at every time in
`(-T, 0)`. -/
theorem value_bounds (T_ slope_ value_ : α) (hT : 0 < T_) (hs : 0 < slope_) (hR : 0 ≤ value_) :
    (∀ t : α, 0 ≤ t →
      0 ≤ (classR.configure T_ slope_ value_).value t ∧
      (classR.configure T_ slope_ value_).value t ≤ value_ ∧
      0 ≤ value_ - (classR.configure T_ slope_ value_).value t ∧
      value_ - (classR.configure T_ slope_ value_).value t ≤ value_ ∧
      (classR.configure T_ slope_ value_).value t +
        (value_ - (classR.configure T_ slope_ value_).value t) = value_) ∧
    (∀ (m : Libm α) (c : zvs α) (k : ℕ), c.resist = classR.configure T_ slope_ value_ →
      0 ≤ c.delta_t →
      0 ≤ c.resist.value (c.loop_head m SimState.init k).t ∧
      c.resist.value (c.loop_head m SimState.init k).t ≤ value_) ∧
    (0 < value_ → ∀ t : α, -T_ < t → t < 0 →
      (classR.configure T_ slope_ value_).value t < 0) := by
  refine ⟨fun t ht => ?_, fun m c k hres hdt => ?_, fun hpos t ht ht' => ?_⟩
  · obtain ⟨h0, h1⟩ := value_mem_of_nonneg T_ slope_ value_ t hT hs hR ht
    exact ⟨h0, h1, by linarith, by linarith, by ring⟩
  · rw [hres]
    apply value_mem_of_nonneg T_ slope_ value_ _ hT hs hR
    rw [loop_head_t]
    have : (0 : α) ≤ k * c.delta_t := mul_nonneg (Nat.cast_nonneg k) hdt
    simpa [SimState.init] using this
  · obtain ⟨e1, -, -, -, -, e6⟩ := configure_fields T_ slope_ value_
    have hr := reduce_eq_self_of_neg T_ slope_ value_ t hT ht ht'
    have hp1 : 0 < (classR.configure T_ slope_ value_).p1 := by
      rw [e1]; exact mul_pos hT (by positivity)
    rw [(value_branches _ t).1 (by rw [hr]; linarith), hr, e6]
    exact div_neg_of_neg_of_pos (mul_neg_of_pos_of_neg hpos ht') hp1

/-- Witness of C16: period 2, slope 50, resistance 1; at `t = -1` the value is negative. -/
theorem value_bounds_witness :
    (0 : ℚ) < 2 ∧ (0 : ℚ) < 50 ∧ (0 : ℚ) ≤ 1 ∧
    (0 ≤ (classR.configure (2 : ℚ) 50 1).value 3 ∧
      (classR.configure (2 : ℚ) 50 1).value 3 ≤ 1) ∧
    (classR.configure (2 : ℚ) 50 1).value (-1) < 0 :=
  ⟨by norm_num, by norm_num, by norm_num,
    ⟨((value_bounds (2 : ℚ) 50 1 (by norm_num) (by norm_num) (by norm_num)).1 3
        (by norm_num)).1,
      ((value_bounds (2 : ℚ) 50 1 (by norm_num) (by norm_num) (by norm_num)).1 3
        (by norm_num)).2.1⟩,
    (value_bounds (2 : ℚ) 50 1 (by norm_num) (by norm_num) (by norm_num)).2.2 (by norm_num)
      (-1) (by norm_num) (by norm_num)⟩

/-! ## C12, C13: the integration step -/

/-- A step leaves the electrical state computed by the algorithm as it is. -/
theorem step_electrical (m : Libm α) (c : zvs α) (s : SimState α) :
    (c.step m s).I1 = (c.algorithm m s).I1 ∧ (c.step m s).I2 = (c.algorithm m s).I2 ∧
    (c.step m s).I3 = (c.algorithm m s).I3 ∧ (c.step m s).I4 = (c.algorithm m s).I4 ∧
    (c.step m s).I1d = (c.algorithm m s).I1d ∧ (c.step m s).I2d = (c.algorithm m s).I2d ∧
    (c.step m s).I3d = (c.algorithm m s).I3d ∧ (c.step m s).I4d = (c.algorithm m s).I4d ∧
    (c.step m s).I1da = (c.algorithm m s).I1da ∧ (c.step m s).I2da = (c.algorithm m s).I2da ∧
    (c.step m s).I3da = (c.algorithm m s).I3da ∧ (c.step m s).I4da = (c.algorithm m s).I4da ∧
    (c.step m s).int_I3 = (c.algorithm m s).int_I3 := by
  unfold zvs.step zvs.record
  split_ifs <;> exact ⟨rfl, rfl, rfl, rfl, rfl, rfl, rfl, rfl, rfl, rfl, rfl, rfl, rfl⟩

/-- The integral on entry to step `n` is `delta_t` times the sum of the values of `I3`
left by the steps before it. -/
theorem loop_head_int_I3 (m : Libm α) (c : zvs α) (n : ℕ) :
    (c.loop_head m SimState.init n).int_I3 =
      c.delta_t * ∑ k in Finset.range n, (c.step m (c.loop_head m SimState.init k)).I3 := by
  induction n with
  | zero => simp [zvs.loop_head, SimState.init]
  | succ n ih =>
    rw [loop_head_succ, Finset.sum_range_succ, mul_add, ← ih]
    have e : (c.algorithm m (c.loop_head m SimState.init n)).int_I3 =
        (c.loop_head m SimState.init n).int_I3 +
          (c.algorithm m (c.loop_head m SimState.init n)).I3 * c.delta_t := rfl
    show (c.step m (c.loop_head m SimState.init n)).int_I3 = _
    rw [(step_electrical m c _).2.2.2.2.2.2.2.2.2.2.2.2, (step_electrical m c _).2.2.1, e]
    ring

/-- C12: in every step of `zvs::simulate` each current is updated as
`Ik := Ik + Ikd*delta_t + 0.5*delta_t*(Ikd - Ikda)`, which is
`Ik + delta_t*(3*Ikd - Ikda)/2`, with `Ikd` the derivative of this step and `Ikda` the one
stored by the step before (0 at the first step); then `Ikda := Ikd`.  The integral is updated
with the new `I3`, `int_I3 := int_I3 + I3*delta_t`, so that on entry to step `n` it is
`delta_t` times the sum of the `n` values of `I3` left by the steps before. -/
theorem algorithm_update (m : Libm α) (c : zvs α) :
    (∀ s : SimState α,
      ((c.algorithm m s).I1 = s.I1 + ((c.algorithm m s).I1d * c.delta_t +
          0.5 * c.delta_t * ((c.algorithm m s).I1d - s.I1da)) ∧
        (c.algorithm m s).I1 = s.I1 + c.delta_t * (3 * (c.algorithm m s).I1d - s.I1da) / 2 ∧
        (c.algorithm m s).I1da = (c.algorithm m s).I1d) ∧
      ((c.algorithm m s).I2 = s.I2 + ((c.algorithm m s).I2d * c.delta_t +
          0.5 * c.delta_t * ((c.algorithm m s).I2d - s.I2da)) ∧
        (c.algorithm m s).I2 = s.I2 + c.delta_t * (3 * (c.algorithm m s).I2d - s.I2da) / 2 ∧
        (c.algorithm m s).I2da = (c.algorithm m s).I2d) ∧
      ((c.algorithm m s).I3 = s.I3 + ((c.algorithm m s).I3d * c.delta_t +
          0.5 * c.delta_t * ((c.algorithm m s).I3d - s.I3da)) ∧
        (c.algorithm m s).I3 = s.I3 + c.delta_t * (3 * (c.algorithm m s).I3d - s.I3da) / 2 ∧
        (c.algorithm m s).I3da = (c.algorithm m s).I3d) ∧
      ((c.algorithm m s).I4 = s.I4 + ((c.algorithm m s).I4d * c.delta_t +
          0.5 * c.delta_t * ((c.algorithm m s).I4d - s.I4da)) ∧
        (c.algorithm m s).I4 = s.I4 + c.delta_t * (3 * (c.algorithm m s).I4d - s.I4da) / 2 ∧
        (c.algorithm m s).I4da = (c.algorithm m s).I4d) ∧
      (c.algorithm m s).int_I3 = s.int_I3 + (c.algorithm m s).I3 * c.delta_t) ∧
    ((SimState.init : SimState α).I1da = 0 ∧ (SimState.init : SimState α).I2da = 0 ∧
      (SimState.init : SimState α).I3da = 0 ∧ (SimState.init : SimState α).I4da = 0) ∧
    (∀ n : ℕ,
      (c.loop_head m SimState.init (n + 1)).I1da =
        (c.algorithm m (c.loop_head m SimState.init n)).I1d ∧
      (c.loop_head m SimState.init (n + 1)).I2da =
        (c.algorithm m (c.loop_head m SimState.init n)).I2d ∧
      (c.loop_head m SimState.init (n + 1)).I3da =
        (c.algorithm m (c.loop_head m SimState.init n)).I3d ∧
      (c.loop_head m SimState.init (n + 1)).I4da =
        (c.algorithm m (c.loop_head m SimState.init n)).I4d) ∧
    (∀ n : ℕ, (c.loop_head m SimState.init n).int_I3 =
      c.delta_t * ∑ k in Finset.range n, (c.step m (c.loop_head m SimState.init k)).I3) := by
  refine ⟨fun s => ⟨⟨rfl, ?_, rfl⟩, ⟨rfl, ?_, rfl⟩, ⟨rfl, ?_, rfl⟩, ⟨rfl, ?_, rfl⟩, rfl⟩,
    ⟨rfl, rfl, rfl, rfl⟩, fun n => ?_, loop_head_int_I3 m c⟩
  · show s.I1 + ((c.algorithm m s).I1d * c.delta_t +
      0.5 * c.delta_t * ((c.algorithm m s).I1d - s.I1da)) = _
    norm_num
    ring
  · show s.I2 + ((c.algorithm m s).I2d * c.delta_t +
      0.5 * c.delta_t * ((c.algorithm m s).I2d - s.I2da)) = _
    norm_num
    ring
  · show s.I3 + ((c.algorithm m s).I3d * c.delta_t +
      0.5 * c.delta_t * ((c.algorithm m s).I3d - s.I3da)) = _
    norm_num
    ring
  · show s.I4 + ((c.algorithm m s).I4d * c.delta_t +
      0.5 * c.delta_t * ((c.algorithm m s).I4d - s.I4da)) = _
    norm_num
    ring
  · rw [loop_head_succ]
    obtain ⟨-, -, -, -, -, -, -, -, h9, h10, h11, h12, -⟩ :=
      step_electrical m c (c.loop_head m SimState.init n)
    exact ⟨h9, h10, h11, h12⟩

/-- C13 (as amended): in every integration step the derivatives are computed in the order
`I1d`, `I2d`, `I3d`, `I4d`.  `I1d` is computed from the `I2d`, `I3d`, `I4d` (and `I1`) that
the step finds on entry, which are the values left by the step before (zero at the first
step, where `I1d = V/(L1 + L2)`); `I2d` uses the new `I1d` and the old `I3d`, `I4d`; `I3d`
uses the new `I1d`, `I2d` and the old `I4d`; `I4d` uses the new `I1d`, `I2d`, `I3d`. -/
theorem derivative_order (m : Libm α) (c : zvs α) :
    (∀ s : SimState α,
      (c.algorithm m s).I1d =
        (c.V + c.L1 * s.I2d - c.L2 * s.I2d + 2.0 * c.L2 * s.I3d + m.sqrt (c.L2 * c.L4) * s.I4d
          - (c.R - c.resist.value s.t) * s.I1) / (c.L1 + c.L2) ∧
      (c.algorithm m s).I2d =
        -1.0 * (c.V + c.resist.value s.t * s.I2 + c.L2 * ((c.algorithm m s).I1d - 2.0 * s.I3d)
          - c.L1 * (c.algorithm m s).I1d - m.sqrt (c.L2 * c.L4) * s.I4d) / (c.L2 + c.L1) ∧
      (c.algorithm m s).I3d =
        -1.0 * (s.int_I3 / c.C - 2.0 * c.L2 * ((c.algorithm m s).I1d + (c.algorithm m s).I2d)
          + 2.0 * m.sqrt (c.L2 * c.L4) * s.I4d) / (4.0 * c.L2) ∧
      (c.algorithm m s).I4d =
        -1.0 * (c.R_Sec * s.I4 + m.sqrt (c.L2 * c.L4) *
          (2.0 * (c.algorithm m s).I3d - (c.algorithm m s).I1d - (c.algorithm m s).I2d)) / c.L4) ∧
    (c.algorithm m SimState.init).I1d = c.V / (c.L1 + c.L2) ∧
    (∀ n : ℕ,
      (c.loop_head m SimState.init (n + 1)).I1 =
        (c.algorithm m (c.loop_head m SimState.init n)).I1 ∧
      (c.loop_head m SimState.init (n + 1)).I2d =
        (c.algorithm m (c.loop_head m SimState.init n)).I2d ∧
      (c.loop_head m SimState.init (n + 1)).I3d =
        (c.algorithm m (c.loop_head m SimState.init n)).I3d ∧
      (c.loop_head m SimState.init (n + 1)).I4d =
        (c.algorithm m (c.loop_head m SimState.init n)).I4d) := by
  refine ⟨fun s => ⟨rfl, rfl, rfl, rfl⟩, ?_, fun n => ?_⟩
  · simp only [zvs.algorithm, SimState.init]
    norm_num
  · rw [loop_head_succ]
    obtain ⟨h1, -, -, -, -, h6, h7, h8, -⟩ := step_electrical m c (c.loop_head m SimState.init n)
    exact ⟨h1, h6, h7, h8⟩

/-- C13 (as stated) fails at the first step of a run with `L1 = 2`, `L2 = L4 = C = 1`,
`V = 3`: the step computes `I1d = 3/3 = 1` from the zero derivatives it finds on entry,
then `I2d = -2/3`, `I3d = 1/6`, `I4d = 0`; computed from these values of the same step,
`I1d` would be `8/9`. -/
theorem I1d_uses_previous_step :
    (uneven_run.algorithm Libm.rat SimState.init).I1d = 1 ∧
    (uneven_run.algorithm Libm.rat SimState.init).I2d = -2 / 3 ∧
    (uneven_run.algorithm Libm.rat SimState.init).I3d = 1 / 6 ∧
    (uneven_run.algorithm Libm.rat SimState.init).I4d = 0 ∧
    (uneven_run.V + uneven_run.L1 * (uneven_run.algorithm Libm.rat SimState.init).I2d
        - uneven_run.L2 * (uneven_run.algorithm Libm.rat SimState.init).I2d
        + 2.0 * uneven_run.L2 * (uneven_run.algorithm Libm.rat SimState.init).I3d
        + Libm.rat.sqrt (uneven_run.L2 * uneven_run.L4) *
          (uneven_run.algorithm Libm.rat SimState.init).I4d
        - (uneven_run.R - uneven_run.resist.value (SimState.init : SimState ℚ).t) *
          (SimState.init : SimState ℚ).I1) / (uneven_run.L1 + uneven_run.L2) = 8 / 9 ∧
    (uneven_run.algorithm Libm.rat SimState.init).I1d ≠
      (uneven_run.V + uneven_run.L1 * (uneven_run.algorithm Libm.rat SimState.init).I2d
        - uneven_run.L2 * (uneven_run.algorithm Libm.rat SimState.init).I2d
        + 2.0 * uneven_run.L2 * (uneven_run.algorithm Libm.rat SimState.init).I3d
        + Libm.rat.sqrt (uneven_run.L2 * uneven_run.L4) *
          (uneven_run.algorithm Libm.rat SimState.init).I4d
        - (uneven_run.R - uneven_run.resist.value (SimState.init : SimState ℚ).t) *
          (SimState.init : SimState ℚ).I1) / (uneven_run.L1 + uneven_run.L2) := by
  have hf : uneven_run.L1 = 2 ∧ uneven_run.L2 = 1 ∧ uneven_run.L4 = 1 ∧ uneven_run.V = 3 ∧
      uneven_run.C = 1 ∧ uneven_run.R_Sec = 1 := by
    norm_num [uneven_run, zvs.read_parameters, zvs.configure]
  obtain ⟨f1, f2, f3, f4, f5, f6⟩ := hf
  have hsq : Libm.rat.sqrt (1 * 1) = 1 := by
    norm_num [Libm.rat]
  have h1 : (uneven_run.algorithm Libm.rat SimState.init).I1d = 1 := by
    simp only [zvs.algorithm, SimState.init, f1, f2, f3, f4, f5, f6]
    norm_num
  have h2 : (uneven_run.algorithm Libm.rat SimState.init).I2d = -2 / 3 := by
    simp only [zvs.algorithm, SimState.init, f1, f2, f3, f4, f5, f6]
    norm_num
  have h3 : (uneven_run.algorithm Libm.rat SimState.init).I3d = 1 / 6 := by
    simp only [zvs.algorithm, SimState.init, f1, f2, f3, f4, f5, f6]
    norm_num
  have h4 : (uneven_run.algorithm Libm.rat SimState.init).I4d = 0 := by
    simp only [zvs.algorithm, SimState.init, f1, f2, f3, f4, f5, f6]
    norm_num
  have h5 : (uneven_run.V + uneven_run.L1 * (uneven_run.algorithm Libm.rat SimState.init).I2d
        - uneven_run.L2 * (uneven_run.algorithm Libm.rat SimState.init).I2d
        + 2.0 * uneven_run.L2 * (uneven_run.algorithm Libm.rat SimState.init).I3d
        + Libm.rat.sqrt (uneven_run.L2 * uneven_run.L4) *
          (uneven_run.algorithm Libm.rat SimState.init).I4d
        - (uneven_run.R - uneven_run.resist.value (SimState.init : SimState ℚ).t) *
          (SimState.init : SimState ℚ).I1) / (uneven_run.L1 + uneven_run.L2) = 8 / 9 := by
    rw [h2, h3, h4, f1, f2, f4]
    norm_num [SimState.init]
  refine ⟨h1, h2, h3, h4, h5, ?_⟩
  rw [h1, h5]
  norm_num

/-! ## C17: the single-step run -/

/-- The times in the five files on entry to step `k`: the loop times of the steps before it
that lie inside the recording window. -/
theorem loop_head_times (m : Libm α) (c : zvs α) (k : ℕ) :
    (c.loop_head m SimState.init k).Vsec_dat.map Prod.fst =
      ((List.range k).map (fun j : ℕ => (j : α) * c.delta_t)).filter
        (fun t => decide (c.t_total * (1.0 - c.last_perc / 100.0) < t)) ∧
    (c.loop_head m SimState.init k).VC_dat.map Prod.fst =
      (c.loop_head m SimState.init k).Vsec_dat.map Prod.fst ∧
    (c.loop_head m SimState.init k).IL2_dat.map Prod.fst =
      (c.loop_head m SimState.init k).Vsec_dat.map Prod.fst ∧
    (c.loop_head m SimState.init k).ISource_dat.map Prod.fst =
      (c.loop_head m SimState.init k).Vsec_dat.map Prod.fst ∧
    (c.loop_head m SimState.init k).IC_dat.map Prod.fst =
      (c.loop_head m SimState.init k).Vsec_dat.map Prod.fst := by
  induction k with
  | zero => simp [zvs.loop_head, SimState.init]
  | succ k ih =>
    have ht : (c.loop_head m SimState.init k).t = k * c.delta_t := by
      rw [loop_head_t]; simp [SimState.init]
    obtain ⟨i1, i2, i3, i4, i5⟩ := ih
    rw [loop_head_succ, List.range_succ, List.map_append, List.filter_append, ← i1]
    rcases lt_or_le (c.t_total * (1.0 - c.last_perc / 100.0))
      (c.loop_head m SimState.init k).t with h | h
    · obtain ⟨e1, e2, e3, e4, e5⟩ := step_files_of_gt m c _ h
      simp only [zvs.next, e1, e2, e3, e4, e5, List.map_append, List.map_cons, List.map_nil,
        i2, i3, i4, i5, ht]
      rw [ht] at h
      simp [h]
    · obtain ⟨e1, e2, e3, e4, e5⟩ := step_files_of_le m c _ h
      simp only [zvs.next, e1, e2, e3, e4, e5, i2, i3, i4, i5]
      rw [ht] at h
      simp [not_lt.mpr h]

/-- C17: for `L1, L2, L4, C > 0`, `T > 0`, `slope_R > 0` and `0 < t_total ≤ delta_t`, in
exact arithmetic (every value finite) `zvs::simulate` executes exactly one step, after which
`I1 = 1.5*delta_t*V/(L1 + L2)`, and it returns `convergence_error = true` if and only if
`|1.5*delta_t*V/(L1 + L2)| > 1e10`. -/
theorem simulate_single_step (m : Libm α) (c : zvs α) (hfin : ∀ x, m.isfinite x = true)
    (_hL1 : 0 < c.L1) (_hL2 : 0 < c.L2) (_hL4 : 0 < c.L4) (_hC : 0 < c.C) (_hT : 0 < c.T)
    (_hs : 0 < c.slope_R) (ht : 0 < c.t_total) (htd : c.t_total ≤ c.delta_t) (fuel : ℕ)
    (hfuel : 1 < fuel) :
    ∃ (r : SimState α) (trace : List (SimState α × SimState α)),
      c.simulate m fuel = some (r, trace) ∧
      trace.length = 1 ∧
      (∀ e ∈ trace, e.1 = SimState.init) ∧
      r.I1 = 1.5 * c.delta_t * c.V / (c.L1 + c.L2) ∧
      (r.convergence_error = true ↔ |1.5 * c.delta_t * c.V / (c.L1 + c.L2)| > 1e10) := by
  obtain ⟨f, rfl⟩ : ∃ f, fuel = f + 2 := ⟨fuel - 2, by omega⟩
  have hc : (SimState.init : SimState α).t < c.t_total := ht
  have hI := step_init_I1 m c
  have hdiv : diverged m (c.step m SimState.init).I1 = true ↔
      |1.5 * c.delta_t * c.V / (c.L1 + c.L2)| > 1e10 := by
    rw [diverged_iff, hfin, hI]
    simp
  unfold zvs.simulate
  rw [zvs.simulate_loop, if_pos hc]
  by_cases hd : diverged m (c.step m SimState.init).I1 = true
  · simp only [hd, if_true, List.nil_append]
    refine ⟨_, _, rfl, rfl, by simp, hI, ?_⟩
    exact ⟨fun _ => hdiv.mp hd, fun _ => rfl⟩
  · simp only [hd, if_false, List.nil_append]
    have hc2 : ¬ (c.next (c.step m SimState.init)).t < c.t_total := by
      show ¬ (c.step m SimState.init).t + c.delta_t < c.t_total
      rw [step_t]
      have : (SimState.init : SimState α).t = 0 := rfl
      rw [this]
      linarith
    rw [zvs.simulate_loop, if_neg hc2]
    refine ⟨_, _, rfl, rfl, by simp, hI, ?_⟩
    constructor
    · intro h
      have : (c.next (c.step m SimState.init)).convergence_error = false := by
        show (c.step m SimState.init).convergence_error = false
        rw [step_convergence_error]; rfl
      rw [this] at h
      exact absurd h (by simp)
    · intro h
      exact absurd (hdiv.mpr h) hd

/-- Witness of C17: `L1 = L2 = L4 = C = 1`, `V = 3`, one time step of size 4 up to
`t_total = 4`. -/
theorem simulate_single_step_witness :
    (∀ x, Libm.rat.isfinite x = true) ∧ 0 < one_step_run.L1 ∧ 0 < one_step_run.L2 ∧
    0 < one_step_run.L4 ∧ 0 < one_step_run.C ∧ 0 < one_step_run.T ∧
    0 < one_step_run.slope_R ∧ 0 < one_step_run.t_total ∧
    one_step_run.t_total ≤ one_step_run.delta_t ∧
    ∃ (r : SimState ℚ) (trace : List (SimState ℚ × SimState ℚ)),
      one_step_run.simulate Libm.rat 2 = some (r, trace) ∧
      trace.length = 1 ∧
      (∀ e ∈ trace, e.1 = SimState.init) ∧
      r.I1 = 1.5 * one_step_run.delta_t * one_step_run.V / (one_step_run.L1 + one_step_run.L2) ∧
      (r.convergence_error = true ↔
        |1.5 * one_step_run.delta_t * one_step_run.V / (one_step_run.L1 + one_step_run.L2)|
          > 1e10) :=
  have hf : one_step_run.L1 = 1 ∧ one_step_run.L2 = 1 ∧ one_step_run.L4 = 1 ∧
      one_step_run.C = 1 ∧ one_step_run.slope_R = 1 ∧ one_step_run.t_total = 4 ∧
      one_step_run.delta_t = 4 ∧ one_step_run.T = 2.0 * (355 / 113) * Libm.rat.sqrt 4 := by
    norm_num [one_step_run, zvs.read_parameters, zvs.configure, Libm.rat]
  have hsq : Libm.rat.sqrt 4 = 2 := by
    have h : Nat.sqrt (Int.toNat 4) = 2 := Nat.sqrt_eq 2
    norm_num [Libm.rat]
    rw [h]
    norm_num
  have h1 : 0 < one_step_run.L1 := by rw [hf.1]; norm_num
  have h2 : 0 < one_step_run.L2 := by rw [hf.2.1]; norm_num
  have h3 : 0 < one_step_run.L4 := by rw [hf.2.2.1]; norm_num
  have h4 : 0 < one_step_run.C := by rw [hf.2.2.2.1]; norm_num
  have h5 : 0 < one_step_run.T := by rw [hf.2.2.2.2.2.2.2, hsq]; norm_num
  have h6 : 0 < one_step_run.slope_R := by rw [hf.2.2.2.2.1]; norm_num
  have h7 : 0 < one_step_run.t_total := by rw [hf.2.2.2.2.2.1]; norm_num
  have h8 : one_step_run.t_total ≤ one_step_run.delta_t := by
    rw [hf.2.2.2.2.2.1, hf.2.2.2.2.2.2.1]
  ⟨fun _ => rfl, h1, h2, h3, h4, h5, h6, h7, h8,
    simulate_single_step Libm.rat one_step_run (fun _ => rfl) h1 h2 h3 h4 h5 h6 h7 h8 2
      (by norm_num)⟩

/-! ## C9, C14: the recorded samples -/

/-- The square root of the stand-in library at 1. -/
theorem rat_sqrt_one : Libm.rat.sqrt 1 = 1 := by
  norm_num [Libm.rat]

/-- The square root of the stand-in library at 4. -/
theorem rat_sqrt_four : Libm.rat.sqrt 4 = 2 := by
  have h : Nat.sqrt (Int.toNat 4) = 2 := Nat.sqrt_eq 2
  norm_num [Libm.rat]
  rw [h]
  norm_num

/-- The data members of `recording_run`. -/
theorem recording_run_fields :
    recording_run.L1 = 2 ∧ recording_run.L2 = 1 ∧ recording_run.L4 = 1 ∧ recording_run.V = 3 ∧
    recording_run.C = 1 ∧ recording_run.delta_t = 1 ∧ recording_run.t_total = 3 ∧
    recording_run.R = 1 ∧ recording_run.R_Sec = 5 ∧ recording_run.last_perc = 100 ∧
    recording_run.resist = classR.configure (1420 / 113) 1 1 := by
  have h4 : (4.0 * 1 * 1 : ℚ) = 4 := by norm_num
  simp only [recording_run, zvs.read_parameters, zvs.configure, h4, rat_sqrt_four]
  norm_num [Libm.rat]

/-- The switch resistance of `recording_run` at its three loop times: 0 at the start of the
period, then its maximum. -/
theorem recording_run_R1 :
    recording_run.resist.value 0 = 0 ∧ recording_run.resist.value 1 = 1 ∧
    recording_run.resist.value 2 = 1 := by
  rw [recording_run_fields.2.2.2.2.2.2.2.2.2.2]
  have r0 : (classR.configure (1420 / 113 : ℚ) 1 1).reduce 0 = 0 := by
    rw [reduce_eq_self] <;> norm_num
  have r1 : (classR.configure (1420 / 113 : ℚ) 1 1).reduce 1 = 1 := by
    rw [reduce_eq_self] <;> norm_num
  have r2 : (classR.configure (1420 / 113 : ℚ) 1 1).reduce 2 = 2 := by
    rw [reduce_eq_self] <;> norm_num
  refine ⟨?_, ?_, ?_⟩
  · simp only [classR.value, r0]
    norm_num [classR.configure]
  · simp only [classR.value, r1]
    norm_num [classR.configure]
  · simp only [classR.value, r2]
    norm_num [classR.configure]

/-- The first step of `recording_run`, at loop time 0: nothing is recorded. -/
theorem recording_run_step0 :
    recording_run.step Libm.rat SimState.init = recording_run_s1 := by
  obtain ⟨f1, f2, f3, f4, f5, f6, f7, f8, f9, f10, -⟩ := recording_run_fields
  have hm : Libm.rat.sqrt (1 * 1) = 1 := by rw [one_mul]; exact rat_sqrt_one
  have ht : (SimState.init : SimState ℚ).t = 0 := rfl
  simp only [zvs.step, zvs.algorithm, zvs.record, ht, recording_run_R1.1, f1, f2, f3, f4, f5,
    f6, f7, f8, f9, f10, hm]
  norm_num [SimState.init, recording_run_s1]

/-- The second step of `recording_run`, at loop time 1: one line in each file. -/
theorem recording_run_step1 :
    recording_run.step Libm.rat (recording_run.next recording_run_s1) = recording_run_s2 := by
  obtain ⟨f1, f2, f3, f4, f5, f6, f7, f8, f9, f10, -⟩ := recording_run_fields
  have hm : Libm.rat.sqrt (1 * 1) = 1 := by rw [one_mul]; exact rat_sqrt_one
  have ht : (recording_run.next recording_run_s1).t = 1 := by
    simp only [zvs.next, recording_run_s1, f6]; norm_num
  simp only [zvs.step, zvs.algorithm, zvs.record, ht, recording_run_R1.2.1, f1, f2, f3, f4,
    f5, f6, f7, f8, f9, f10, hm]
  norm_num [zvs.next, recording_run_s1, recording_run_s2]

/-- The third step of `recording_run`, at loop time 2: a second line in each file. -/
theorem recording_run_step2 :
    recording_run.step Libm.rat (recording_run.next recording_run_s2) = recording_run_s3 := by
  obtain ⟨f1, f2, f3, f4, f5, f6, f7, f8, f9, f10, -⟩ := recording_run_fields
  have hm : Libm.rat.sqrt (1 * 1) = 1 := by rw [one_mul]; exact rat_sqrt_one
  have ht : (recording_run.next recording_run_s2).t = 2 := by
    simp only [zvs.next, recording_run_s2, f6]; norm_num
  simp only [zvs.step, zvs.algorithm, zvs.record, ht, recording_run_R1.2.2, f1, f2, f3, f4,
    f5, f6, f7, f8, f9, f10, hm]
  norm_num [zvs.next, recording_run_s2, recording_run_s3]

/-- The whole run of `recording_run`: three steps, the last two recorded, no divergence. -/
theorem recording_run_result :
    recording_run.simulate Libm.rat 4 =
      some (recording_run.next recording_run_s3,
        [(SimState.init, recording_run_s1),
          (recording_run.next recording_run_s1, recording_run_s2),
          (recording_run.next recording_run_s2, recording_run_s3)]) := by
  obtain ⟨-, -, -, -, -, f6, f7, -⟩ := recording_run_fields
  have c0 : (SimState.init : SimState ℚ).t < recording_run.t_total := by
    rw [f7]; norm_num [SimState.init]
  have c1 : (recording_run.next recording_run_s1).t < recording_run.t_total := by
    rw [f7]; norm_num [zvs.next, recording_run_s1, f6]
  have c2 : (recording_run.next recording_run_s2).t < recording_run.t_total := by
    rw [f7]; norm_num [zvs.next, recording_run_s2, f6]
  have c3 : ¬ (recording_run.next recording_run_s3).t < recording_run.t_total := by
    rw [f7]; norm_num [zvs.next, recording_run_s3, f6]
  have d1 : diverged Libm.rat recording_run_s1.I1 = false := by
    norm_num [diverged, Libm.rat, recording_run_s1, abs_of_pos]
  have d2 : diverged Libm.rat recording_run_s2.I1 = false := by
    norm_num [diverged, Libm.rat, recording_run_s2, abs_of_pos]
  have d3 : diverged Libm.rat recording_run_s3.I1 = false := by
    norm_num [diverged, Libm.rat, recording_run_s3, abs_of_pos]
  unfold zvs.simulate
  rw [zvs.simulate_loop, if_pos c0]
  simp only [recording_run_step0, d1, Bool.false_eq_true, if_false, List.nil_append]
  rw [zvs.simulate_loop, if_pos c1]
  simp only [recording_run_step1, d2, Bool.false_eq_true, if_false]
  rw [zvs.simulate_loop, if_pos c2]
  simp only [recording_run_step2, d3, Bool.false_eq_true, if_false]
  rw [zvs.simulate_loop, if_neg c3]
  rfl

/-- The time step of `recording_run` is positive. -/
theorem recording_run_delta_t_pos : 0 < recording_run.delta_t := by
  rw [recording_run_fields.2.2.2.2.2.1]; norm_num

/-- Four units of fuel are enough for `recording_run`. -/
theorem recording_run_fuel : ⌈recording_run.t_total / recording_run.delta_t⌉₊ < 4 := by
  rw [recording_run_fields.2.2.2.2.2.1, recording_run_fields.2.2.2.2.2.2.1]
  norm_num

/-- The five files on entry to step `k`: one line for each earlier step whose loop time lies
inside the recording window, made of that loop time and of the values left by that step. -/
theorem loop_head_files (m : Libm α) (c : zvs α) (k : ℕ) :
    (c.loop_head m SimState.init k).Vsec_dat =
      (((List.range k).map (fun j =>
        (c.loop_head m SimState.init j, c.step m (c.loop_head m SimState.init j)))).filter
          (fun e => decide (c.t_total * (1.0 - c.last_perc / 100.0) < e.1.t))).map
        (fun e => (e.1.t, e.2.I4 * c.R_Sec)) ∧
    (c.loop_head m SimState.init k).VC_dat =
      (((List.range k).map (fun j =>
        (c.loop_head m SimState.init j, c.step m (c.loop_head m SimState.init j)))).filter
          (fun e => decide (c.t_total * (1.0 - c.last_perc / 100.0) < e.1.t))).map
        (fun e => (e.1.t, e.2.int_I3 / c.C)) ∧
    (c.loop_head m SimState.init k).IL2_dat =
      (((List.range k).map (fun j =>
        (c.loop_head m SimState.init j, c.step m (c.loop_head m SimState.init j)))).filter
          (fun e => decide (c.t_total * (1.0 - c.last_perc / 100.0) < e.1.t))).map
        (fun e => (e.1.t, e.2.I3 - e.2.I2)) ∧
    (c.loop_head m SimState.init k).ISource_dat =
      (((List.range k).map (fun j =>
        (c.loop_head m SimState.init j, c.step m (c.loop_head m SimState.init j)))).filter
          (fun e => decide (c.t_total * (1.0 - c.last_perc / 100.0) < e.1.t))).map
        (fun e => (e.1.t, e.2.I1 - e.2.I2)) ∧
    (c.loop_head m SimState.init k).IC_dat =
      (((List.range k).map (fun j =>
        (c.loop_head m SimState.init j, c.step m (c.loop_head m SimState.init j)))).filter
          (fun e => decide (c.t_total * (1.0 - c.last_perc / 100.0) < e.1.t))).map
        (fun e => (e.1.t, e.2.I3)) := by
  induction k with
  | zero => simp [zvs.loop_head, SimState.init]
  | succ k ih =>
    obtain ⟨i1, i2, i3, i4, i5⟩ := ih
    obtain ⟨s1, s2, s3, s4, -, -, -, -, -, -, -, -, s13⟩ :=
      step_electrical m c (c.loop_head m SimState.init k)
    rw [loop_head_succ]
    simp only [List.range_succ, List.map_append, List.filter_append, List.map_cons,
      List.map_nil, ← i1, ← i2, ← i3, ← i4, ← i5]
    rcases lt_or_le (c.t_total * (1.0 - c.last_perc / 100.0))
      (c.loop_head m SimState.init k).t with h | h
    · obtain ⟨e1, e2, e3, e4, e5⟩ := step_files_of_gt m c _ h
      simp only [zvs.next, e1, e2, e3, e4, e5, List.filter_cons, List.filter_nil, h, decide_True,
        if_true, List.map_cons, List.map_nil, s1, s2, s3, s4, s13]
      simp
    · obtain ⟨e1, e2, e3, e4, e5⟩ := step_files_of_le m c _ h
      simp only [zvs.next, e1, e2, e3, e4, e5, List.filter_cons, List.filter_nil,
        not_lt.mpr h, decide_False, Bool.false_eq_true, if_false, List.map_nil,
        List.append_nil]
      simp

/-- The files left by a run are those on entry to the step after the last executed one. -/
theorem simulate_run_files (m : Libm α) (c : zvs α) (n : ℕ) (r : SimState α)
    (h4 : (n = ⌈c.t_total / c.delta_t⌉₊ ∧ r = c.loop_head m SimState.init n ∧
          ∀ k, k < n → diverged m (c.step m (c.loop_head m SimState.init k)).I1 = false) ∨
        (∃ j, n = j + 1 ∧ diverged m (c.step m (c.loop_head m SimState.init j)).I1 = true ∧
          r = { c.step m (c.loop_head m SimState.init j) with convergence_error := true })) :
    r.Vsec_dat = (c.loop_head m SimState.init n).Vsec_dat ∧
    r.VC_dat = (c.loop_head m SimState.init n).VC_dat ∧
    r.IL2_dat = (c.loop_head m SimState.init n).IL2_dat ∧
    r.ISource_dat = (c.loop_head m SimState.init n).ISource_dat ∧
    r.IC_dat = (c.loop_head m SimState.init n).IC_dat := by
  rcases h4 with ⟨-, e, -⟩ | ⟨j, hj, -, e⟩
  · rw [e]; exact ⟨rfl, rfl, rfl, rfl, rfl⟩
  · rw [e, hj, loop_head_succ]; exact ⟨rfl, rfl, rfl, rfl, rfl⟩

/-- C9: in a run of `zvs::simulate` (with `delta_t > 0` and enough fuel), every executed step
leaves `I1..I4` and `int_I3` as the algorithm has just computed them; every step whose loop
time `t` exceeds `t_total*(1 - last_perc/100)`, and every step that changes one of the five
files, appends `(t, I4*R_Sec)` to Vsec, `(t, int_I3/C)` to VC, `(t, I3 - I2)` to IL2,
`(t, I1 - I2)` to ISource and `(t, I3)` to IC, with these values; and the files left by the
run hold exactly these lines, one per executed step inside the recording window, in the
order of the steps. -/
theorem simulate_samples (m : Libm α) (c : zvs α) (hdt : 0 < c.delta_t) (fuel : ℕ)
    (hfuel : ⌈c.t_total / c.delta_t⌉₊ < fuel) :
    ∃ (r : SimState α) (trace : List (SimState α × SimState α)),
      c.simulate m fuel = some (r, trace) ∧
      (∀ e ∈ trace,
        (e.2.I1 = (c.algorithm m e.1).I1 ∧ e.2.I2 = (c.algorithm m e.1).I2 ∧
          e.2.I3 = (c.algorithm m e.1).I3 ∧ e.2.I4 = (c.algorithm m e.1).I4 ∧
          e.2.int_I3 = (c.algorithm m e.1).int_I3) ∧
        ((c.t_total * (1.0 - c.last_perc / 100.0) < e.1.t ∨
            e.2.Vsec_dat ≠ e.1.Vsec_dat ∨ e.2.VC_dat ≠ e.1.VC_dat ∨
            e.2.IL2_dat ≠ e.1.IL2_dat ∨ e.2.ISource_dat ≠ e.1.ISource_dat ∨
            e.2.IC_dat ≠ e.1.IC_dat) →
          e.2.Vsec_dat = e.1.Vsec_dat ++ [(e.1.t, e.2.I4 * c.R_Sec)] ∧
          e.2.VC_dat = e.1.VC_dat ++ [(e.1.t, e.2.int_I3 / c.C)] ∧
          e.2.IL2_dat = e.1.IL2_dat ++ [(e.1.t, e.2.I3 - e.2.I2)] ∧
          e.2.ISource_dat = e.1.ISource_dat ++ [(e.1.t, e.2.I1 - e.2.I2)] ∧
          e.2.IC_dat = e.1.IC_dat ++ [(e.1.t, e.2.I3)])) ∧
      r.Vsec_dat =
        (trace.filter (fun e => decide (c.t_total * (1.0 - c.last_perc / 100.0) < e.1.t))).map
          (fun e => (e.1.t, e.2.I4 * c.R_Sec)) ∧
      r.VC_dat =
        (trace.filter (fun e => decide (c.t_total * (1.0 - c.last_perc / 100.0) < e.1.t))).map
          (fun e => (e.1.t, e.2.int_I3 / c.C)) ∧
      r.IL2_dat =
        (trace.filter (fun e => decide (c.t_total * (1.0 - c.last_perc / 100.0) < e.1.t))).map
          (fun e => (e.1.t, e.2.I3 - e.2.I2)) ∧
      r.ISource_dat =
        (trace.filter (fun e => decide (c.t_total * (1.0 - c.last_perc / 100.0) < e.1.t))).map
          (fun e => (e.1.t, e.2.I1 - e.2.I2)) ∧
      r.IC_dat =
        (trace.filter (fun e => decide (c.t_total * (1.0 - c.last_perc / 100.0) < e.1.t))).map
          (fun e => (e.1.t, e.2.I3)) := by
  obtain ⟨n, r, hr, -, -, h4⟩ := simulate_run m c hdt fuel hfuel
  obtain ⟨f1, f2, f3, f4, f5⟩ := simulate_run_files m c n r h4
  obtain ⟨l1, l2, l3, l4, l5⟩ := loop_head_files m c n
  refine ⟨r, _, hr, ?_, f1.trans l1, f2.trans l2, f3.trans l3, f4.trans l4, f5.trans l5⟩
  intro e he
  obtain ⟨k, -, rfl⟩ := List.mem_map.mp he
  obtain ⟨s1, s2, s3, s4, -, -, -, -, -, -, -, -, s13⟩ :=
    step_electrical m c (c.loop_head m SimState.init k)
  refine ⟨⟨s1, s2, s3, s4, s13⟩, fun hne => ?_⟩
  rcases lt_or_le (c.t_total * (1.0 - c.last_perc / 100.0))
    (c.loop_head m SimState.init k).t with h | h
  · obtain ⟨e1, e2, e3, e4, e5⟩ := step_files_of_gt m c _ h
    simp only [s1, s2, s3, s4, s13]
    exact ⟨e1, e2, e3, e4, e5⟩
  · obtain ⟨h1, h2, h3, h4', h5⟩ := step_files_of_le m c _ h
    rcases hne with x | x | x | x | x | x
    · exact absurd x (not_lt.mpr h)
    · exact absurd h1 x
    · exact absurd h2 x
    · exact absurd h3 x
    · exact absurd h4' x
    · exact absurd h5 x

/-- Witness of C9: the run of `recording_run` with fuel 4, three steps at loop times 0, 1
and 2 with threshold 0.  The last two steps are recorded, and the files hold the values
those two steps leave, which differ from each other and from zero. -/
theorem simulate_samples_witness :
    0 < recording_run.delta_t ∧ ⌈recording_run.t_total / recording_run.delta_t⌉₊ < 4 ∧
    (∃ (r : SimState ℚ) (trace : List (SimState ℚ × SimState ℚ)),
      recording_run.simulate Libm.rat 4 = some (r, trace) ∧
      (∀ e ∈ trace,
        (e.2.I1 = (recording_run.algorithm Libm.rat e.1).I1 ∧
          e.2.I2 = (recording_run.algorithm Libm.rat e.1).I2 ∧
          e.2.I3 = (recording_run.algorithm Libm.rat e.1).I3 ∧
          e.2.I4 = (recording_run.algorithm Libm.rat e.1).I4 ∧
          e.2.int_I3 = (recording_run.algorithm Libm.rat e.1).int_I3) ∧
        ((recording_run.t_total * (1.0 - recording_run.last_perc / 100.0) < e.1.t ∨
            e.2.Vsec_dat ≠ e.1.Vsec_dat ∨ e.2.VC_dat ≠ e.1.VC_dat ∨
            e.2.IL2_dat ≠ e.1.IL2_dat ∨ e.2.ISource_dat ≠ e.1.ISource_dat ∨
            e.2.IC_dat ≠ e.1.IC_dat) →
          e.2.Vsec_dat = e.1.Vsec_dat ++ [(e.1.t, e.2.I4 * recording_run.R_Sec)] ∧
          e.2.VC_dat = e.1.VC_dat ++ [(e.1.t, e.2.int_I3 / recording_run.C)] ∧
          e.2.IL2_dat = e.1.IL2_dat ++ [(e.1.t, e.2.I3 - e.2.I2)] ∧
          e.2.ISource_dat = e.1.ISource_dat ++ [(e.1.t, e.2.I1 - e.2.I2)] ∧
          e.2.IC_dat = e.1.IC_dat ++ [(e.1.t, e.2.I3)])) ∧
      r.Vsec_dat =
        (trace.filter (fun e => decide
          (recording_run.t_total * (1.0 - recording_run.last_perc / 100.0) < e.1.t))).map
          (fun e => (e.1.t, e.2.I4 * recording_run.R_Sec)) ∧
      r.VC_dat =
        (trace.filter (fun e => decide
          (recording_run.t_total * (1.0 - recording_run.last_perc / 100.0) < e.1.t))).map
          (fun e => (e.1.t, e.2.int_I3 / recording_run.C)) ∧
      r.IL2_dat =
        (trace.filter (fun e => decide
          (recording_run.t_total * (1.0 - recording_run.last_perc / 100.0) < e.1.t))).map
          (fun e => (e.1.t, e.2.I3 - e.2.I2)) ∧
      r.ISource_dat =
        (trace.filter (fun e => decide
          (recording_run.t_total * (1.0 - recording_run.last_perc / 100.0) < e.1.t))).map
          (fun e => (e.1.t, e.2.I1 - e.2.I2)) ∧
      r.IC_dat =
        (trace.filter (fun e => decide
          (recording_run.t_total * (1.0 - recording_run.last_perc / 100.0) < e.1.t))).map
          (fun e => (e.1.t, e.2.I3))) ∧
    recording_run.V = 3 ∧
    recording_run.simulate Libm.rat 4 =
      some (recording_run.next recording_run_s3,
        [(SimState.init, recording_run_s1),
          (recording_run.next recording_run_s1, recording_run_s2),
          (recording_run.next recording_run_s2, recording_run_s3)]) ∧
    (recording_run.next recording_run_s3).Vsec_dat = [(1, 15 / 16), (2, -955 / 384)] ∧
    (recording_run.next recording_run_s3).VC_dat = [(1, 229 / 288), (2, 33529 / 20736)] ∧
    (recording_run.next recording_run_s3).IL2_dat = [(1, 461 / 288), (2, 38225 / 20736)] ∧
    (recording_run.next recording_run_s3).ISource_dat = [(1, 61 / 18), (2, 1489 / 324)] ∧
    (recording_run.next recording_run_s3).IC_dat = [(1, 157 / 288), (2, 17041 / 20736)] :=
  ⟨recording_run_delta_t_pos, recording_run_fuel,
    simulate_samples Libm.rat recording_run recording_run_delta_t_pos 4 recording_run_fuel,
    recording_run_fields.2.2.2.1, recording_run_result, rfl, rfl, rfl, rfl, rfl⟩

/-- C14: with `delta_t > 0` and enough fuel, in the files left by one call of
`zvs::simulate` the times are exactly the loop times of the executed steps that exceed
`t_total*(1 - last_perc/100)`, in the order of the steps: they are strictly increasing, all
five files carry the same list of times, and every sample time `t` satisfies
`t_total*(1 - last_perc/100) < t < t_total`. -/
theorem simulate_sample_times (m : Libm α) (c : zvs α) (hdt : 0 < c.delta_t) (fuel : ℕ)
    (hfuel : ⌈c.t_total / c.delta_t⌉₊ < fuel) :
    ∃ (r : SimState α) (trace : List (SimState α × SimState α)),
      c.simulate m fuel = some (r, trace) ∧
      r.Vsec_dat.map Prod.fst =
        (trace.map (fun e => e.1.t)).filter
          (fun t => decide (c.t_total * (1.0 - c.last_perc / 100.0) < t)) ∧
      (r.Vsec_dat.map Prod.fst).Pairwise (fun a b => a < b) ∧
      r.VC_dat.map Prod.fst = r.Vsec_dat.map Prod.fst ∧
      r.IL2_dat.map Prod.fst = r.Vsec_dat.map Prod.fst ∧
      r.ISource_dat.map Prod.fst = r.Vsec_dat.map Prod.fst ∧
      r.IC_dat.map Prod.fst = r.Vsec_dat.map Prod.fst ∧
      ∀ t ∈ r.Vsec_dat.map Prod.fst,
        c.t_total * (1.0 - c.last_perc / 100.0) < t ∧ t < c.t_total := by
  obtain ⟨n, r, hr, hn, -, h4⟩ := simulate_run m c hdt fuel hfuel
  obtain ⟨f1, f2, f3, f4, f5⟩ := simulate_run_files m c n r h4
  obtain ⟨t1, t2, t3, t4, t5⟩ := loop_head_times m c n
  have htr : ((List.range n).map (fun k =>
      (c.loop_head m SimState.init k, c.step m (c.loop_head m SimState.init k)))).map
        (fun e => e.1.t) = (List.range n).map (fun j : ℕ => (j : α) * c.delta_t) := by
    rw [List.map_map]
    apply List.map_congr_left
    intro k _
    simp only [Function.comp, loop_head_t]
    simp [SimState.init]
  refine ⟨r, _, hr, ?_, ?_, ?_, ?_, ?_, ?_, ?_⟩
  · rw [f1, t1, htr]
  · rw [f1, t1]
    apply List.Pairwise.filter
    rw [List.pairwise_map]
    refine List.Pairwise.imp ?_ (List.pairwise_lt_range n)
    intro a b hab
    exact mul_lt_mul_of_pos_right (by exact_mod_cast hab) hdt
  · rw [f1, f2]; exact t2
  · rw [f1, f3]; exact t3
  · rw [f1, f4]; exact t4
  · rw [f1, f5]; exact t5
  · intro t ht
    rw [f1, t1, List.mem_filter, List.mem_map] at ht
    obtain ⟨⟨j, hj, rfl⟩, hthr⟩ := ht
    refine ⟨by simpa using hthr, ?_⟩
    have hjN : j < ⌈c.t_total / c.delta_t⌉₊ := lt_of_lt_of_le (List.mem_range.mp hj) hn
    have := (loop_condition_iff m c hdt j).mpr hjN
    rw [loop_head_t] at this
    simpa [SimState.init] using this

/-- Witness of C14: the run of `recording_run` with fuel 4.  Its loop times are 0, 1, 2, the
threshold is 0 and `t_total = 3`: every file holds the times 1 and 2. -/
theorem simulate_sample_times_witness :
    0 < recording_run.delta_t ∧ ⌈recording_run.t_total / recording_run.delta_t⌉₊ < 4 ∧
    (∃ (r : SimState ℚ) (trace : List (SimState ℚ × SimState ℚ)),
      recording_run.simulate Libm.rat 4 = some (r, trace) ∧
      r.Vsec_dat.map Prod.fst =
        (trace.map (fun e => e.1.t)).filter (fun t => decide
          (recording_run.t_total * (1.0 - recording_run.last_perc / 100.0) < t)) ∧
      (r.Vsec_dat.map Prod.fst).Pairwise (fun a b => a < b) ∧
      r.VC_dat.map Prod.fst = r.Vsec_dat.map Prod.fst ∧
      r.IL2_dat.map Prod.fst = r.Vsec_dat.map Prod.fst ∧
      r.ISource_dat.map Prod.fst = r.Vsec_dat.map Prod.fst ∧
      r.IC_dat.map Prod.fst = r.Vsec_dat.map Prod.fst ∧
      ∀ t ∈ r.Vsec_dat.map Prod.fst,
        recording_run.t_total * (1.0 - recording_run.last_perc / 100.0) < t ∧
          t < recording_run.t_total) ∧
    (∃ (r : SimState ℚ) (trace : List (SimState ℚ × SimState ℚ)),
      recording_run.simulate Libm.rat 4 = some (r, trace) ∧
      trace.map (fun e => e.1.t) = [0, 1, 2] ∧
      recording_run.t_total * (1.0 - recording_run.last_perc / 100.0) = 0 ∧
      recording_run.t_total = 3 ∧
      r.Vsec_dat.map Prod.fst = [1, 2] ∧ r.VC_dat.map Prod.fst = [1, 2] ∧
      r.IL2_dat.map Prod.fst = [1, 2] ∧ r.ISource_dat.map Prod.fst = [1, 2] ∧
      r.IC_dat.map Prod.fst = [1, 2]) := by
  refine ⟨recording_run_delta_t_pos, recording_run_fuel,
    simulate_sample_times Libm.rat recording_run recording_run_delta_t_pos 4
      recording_run_fuel,
    _, _, recording_run_result, ?_, ?_, recording_run_fields.2.2.2.2.2.2.1, rfl, rfl, rfl, rfl,
    rfl⟩
  · have h6 := recording_run_fields.2.2.2.2.2.1
    simp only [List.map_cons, List.map_nil, zvs.next, h6]
    norm_num [SimState.init, recording_run_s1, recording_run_s2]
  · rw [recording_run_fields.2.2.2.2.2.2.1, recording_run_fields.2.2.2.2.2.2.2.2.2.1]
    norm_num

/-! ## C18: linearity in the source voltage -/

/-- The algorithm is linear: with the source voltage and the state multiplied by `k`, the
state it leaves is multiplied by `k`. -/
theorem algorithm_scaled (m : Libm α) (c : zvs α) (k : α) (s s' : SimState α)
    (h : SimState.scaled k s s') :
    SimState.scaled k (c.algorithm m s) (({ c with V := k * c.V } : zvs α).algorithm m s') := by
  obtain ⟨h1, h2, h3, h4, h5, h6, h7, h8, h9, h10, h11, h12, h13, h14⟩ := h
  refine ⟨?_, ?_, ?_, ?_, ?_, ?_, ?_, ?_, ?_, ?_, ?_, ?_, ?_, ?_⟩ <;>
    simp only [zvs.algorithm, h1, h2, h3, h4, h5, h6, h7, h8, h9, h10, h11, h12, h13, h14] <;>
    ring


/-- A whole step is linear in the same sense. -/
theorem step_scaled (m : Libm α) (c : zvs α) (k : α) (s s' : SimState α)
    (h : SimState.scaled k s s') :
    SimState.scaled k (c.step m s) (({ c with V := k * c.V } : zvs α).step m s') := by
  obtain ⟨a1, a2, a3, a4, a5, a6, a7, a8, a9, a10, a11, a12, a13, a14⟩ :=
    algorithm_scaled m c k s s' h
  obtain ⟨e1, e2, e3, e4, e5, e6, e7, e8, e9, e10, e11, e12, e13⟩ := step_electrical m c s
  obtain ⟨f1, f2, f3, f4, f5, f6, f7, f8, f9, f10, f11, f12, f13⟩ :=
    step_electrical m ({ c with V := k * c.V } : zvs α) s'
  refine ⟨?_, ?_, ?_, ?_, ?_, ?_, ?_, ?_, ?_, ?_, ?_, ?_, ?_, ?_⟩
  · rw [e1, f1]; exact a1
  · rw [e2, f2]; exact a2
  · rw [e3, f3]; exact a3
  · rw [e4, f4]; exact a4
  · rw [e5, f5]; exact a5
  · rw [e6, f6]; exact a6
  · rw [e7, f7]; exact a7
  · rw [e8, f8]; exact a8
  · rw [e9, f9]; exact a9
  · rw [e10, f10]; exact a10
  · rw [e11, f11]; exact a11
  · rw [e12, f12]; exact a12
  · rw [e13, f13]; exact a13
  · rw [step_t, step_t]; exact h.2.2.2.2.2.2.2.2.2.2.2.2.2

/-- The state on entry to every step is linear in the source voltage. -/
theorem loop_head_scaled (m : Libm α) (c : zvs α) (k : α) (n : ℕ) :
    SimState.scaled k (c.loop_head m SimState.init n)
      (({ c with V := k * c.V } : zvs α).loop_head m SimState.init n) := by
  induction n with
  | zero =>
    simp [SimState.scaled, zvs.loop_head, SimState.init]
  | succ n ih =>
    rw [loop_head_succ, loop_head_succ]
    obtain ⟨a1, a2, a3, a4, a5, a6, a7, a8, a9, a10, a11, a12, a13, a14⟩ :=
      step_scaled m c k _ _ ih
    refine ⟨a1, a2, a3, a4, a5, a6, a7, a8, a9, a10, a11, a12, a13, ?_⟩
    show (({ c with V := k * c.V } : zvs α).step m _).t + c.delta_t = (c.step m _).t + c.delta_t
    rw [a14]

/-- Without a source voltage every sample in the files on entry to a step is zero. -/
theorem loop_head_files_zero (m : Libm α) (c : zvs α) (hV : c.V = 0) (n : ℕ) :
    (∀ p ∈ (c.loop_head m SimState.init n).Vsec_dat, p.2 = 0) ∧
    (∀ p ∈ (c.loop_head m SimState.init n).VC_dat, p.2 = 0) ∧
    (∀ p ∈ (c.loop_head m SimState.init n).IL2_dat, p.2 = 0) ∧
    (∀ p ∈ (c.loop_head m SimState.init n).ISource_dat, p.2 = 0) ∧
    (∀ p ∈ (c.loop_head m SimState.init n).IC_dat, p.2 = 0) := by
  induction n with
  | zero => simp [zvs.loop_head, SimState.init]
  | succ n ih =>
    obtain ⟨i1, i2, i3, i4, i5⟩ := ih
    obtain ⟨r1, r2, r3, r4, -, -, -, -, -, -, -, -, r13⟩ :=
      algorithm_at_rest m c _ hV (loop_head_at_rest m c hV n)
    rw [loop_head_succ]
    rcases lt_or_le (c.t_total * (1.0 - c.last_perc / 100.0))
      (c.loop_head m SimState.init n).t with h | h
    · obtain ⟨e1, e2, e3, e4, e5⟩ := step_files_of_gt m c _ h
      simp only [zvs.next, e1, e2, e3, e4, e5, r1, r2, r3, r4, r13, List.mem_append,
        List.mem_singleton]
      refine ⟨?_, ?_, ?_, ?_, ?_⟩ <;> rintro p (hp | rfl)
      · exact i1 p hp
      · simp
      · exact i2 p hp
      · simp
      · exact i3 p hp
      · simp
      · exact i4 p hp
      · simp
      · exact i5 p hp
      · simp
    · obtain ⟨e1, e2, e3, e4, e5⟩ := step_files_of_le m c _ h
      simp only [zvs.next, e1, e2, e3, e4, e5]
      exact ⟨i1, i2, i3, i4, i5⟩

omit [FloorRing α] in
/-- A test on zero never reports divergence when zero counts as finite. -/
theorem diverged_zero (m : Libm α) (h0 : m.isfinite 0 = true) : diverged m 0 = false := by
  cases hd : diverged m 0 with
  | false => rfl
  | true =>
    rcases (diverged_iff m 0).mp hd with h | h
    · rw [h0] at h; exact absurd h (by simp)
    · norm_num at h

/-- With a zero time step, no source voltage and zero counted as finite, a loop entered at
rest before `t_total` exhausts every amount of fuel: the loop time never moves. -/
theorem simulate_loop_stalled (m : Libm α) (c : zvs α) (hV : c.V = 0) (hdt : c.delta_t = 0)
    (h0 : m.isfinite 0 = true) :
    ∀ (fuel : ℕ) (s : SimState α) (trace : List (SimState α × SimState α)),
      s.at_rest → s.t < c.t_total → c.simulate_loop m fuel s trace = none := by
  intro fuel
  induction fuel with
  | zero => intro s trace _ _; rfl
  | succ k ih =>
    intro s trace hrest ht
    have hs : (c.step m s).at_rest := record_at_rest c _ (algorithm_at_rest m c s hV hrest)
    have hd : diverged m (c.step m s).I1 = false := by
      rw [hs.1]; exact diverged_zero m h0
    rw [zvs.simulate_loop, if_pos ht]
    simp only [hd, Bool.false_eq_true, if_false]
    apply ih
    · exact hs
    · show (c.step m s).t + c.delta_t < c.t_total
      rw [step_t, hdt, add_zero]
      exact ht

/-- C18 (as stated) fails for a parameter set with `delta_t = 0`: with `V = 0`, every
component value 1 and `t_total = 4`, the loop time stays 0 and `zvs::simulate` never
returns, whatever the fuel, so it does not return `convergence_error = false`.  (In the
program the claim also fails when a denominator is zero, where a `0/0` makes `I1` a NaN and
the run reports a convergence error; the field cannot show that case.) -/
theorem simulate_stalls_with_zero_time_step :
    stalled_run.V = 0 ∧ stalled_run.delta_t = 0 ∧ 0 < stalled_run.t_total ∧
    0 < stalled_run.L1 ∧ 0 < stalled_run.L2 ∧ 0 < stalled_run.L4 ∧ 0 < stalled_run.C ∧
    0 < stalled_run.T ∧ 0 < stalled_run.slope_R ∧
    ∀ fuel : ℕ, stalled_run.simulate Libm.rat fuel = none := by
  have h4 : (4.0 * 1 * 1 : ℚ) = 4 := by norm_num
  have hf : stalled_run.V = 0 ∧ stalled_run.delta_t = 0 ∧ stalled_run.t_total = 4 ∧
      stalled_run.L1 = 1 ∧ stalled_run.L2 = 1 ∧ stalled_run.L4 = 1 ∧ stalled_run.C = 1 ∧
      stalled_run.T = 1420 / 113 ∧ stalled_run.slope_R = 1 := by
    simp only [stalled_run, zvs.configure, h4, rat_sqrt_four]
    norm_num [Libm.rat]
  obtain ⟨f1, f2, f3, f4, f5, f6, f7, f8, f9⟩ := hf
  refine ⟨f1, f2, by rw [f3]; norm_num, by rw [f4]; norm_num, by rw [f5]; norm_num,
    by rw [f6]; norm_num, by rw [f7]; norm_num, by rw [f8]; norm_num, by rw [f9]; norm_num,
    fun fuel => ?_⟩
  unfold zvs.simulate
  apply simulate_loop_stalled Libm.rat stalled_run f1 f2 rfl
  · exact ⟨rfl, rfl, rfl, rfl, rfl, rfl, rfl, rfl, rfl, rfl, rfl, rfl, rfl⟩
  · rw [f3]; norm_num [SimState.init]

/-- The parameter set `uneven_run` has positive component values, period and slope, and
its switch is configured from them. -/
theorem uneven_run_valid :
    0 < uneven_run.L1 ∧ 0 < uneven_run.L2 ∧ 0 < uneven_run.L4 ∧ 0 < uneven_run.C ∧
    0 < uneven_run.T ∧ 0 < uneven_run.slope_R ∧
    uneven_run.resist = classR.configure uneven_run.T uneven_run.slope_R uneven_run.R := by
  have h4 : (4.0 * 1 * 1 : ℚ) = 4 := by norm_num
  have hf : uneven_run.L1 = 2 ∧ uneven_run.L2 = 1 ∧ uneven_run.L4 = 1 ∧ uneven_run.C = 1 ∧
      uneven_run.T = 1420 / 113 ∧ uneven_run.slope_R = 1 := by
    simp only [uneven_run, zvs.read_parameters, zvs.configure, h4, rat_sqrt_four]
    norm_num [Libm.rat]
  obtain ⟨f1, f2, f3, f4, f5, f6⟩ := hf
  exact ⟨by rw [f1]; norm_num, by rw [f2]; norm_num, by rw [f3]; norm_num,
    by rw [f4]; norm_num, by rw [f5]; norm_num, by rw [f6]; norm_num, rfl⟩

/-- The current `I1` of `uneven_run` on entry to its second step. -/
theorem uneven_run_I1 : (uneven_run.loop_head Libm.rat SimState.init 1).I1 = 3 / 2 := by
  have h4 : (4.0 * 1 * 1 : ℚ) = 4 := by norm_num
  have hf : uneven_run.L1 = 2 ∧ uneven_run.L2 = 1 ∧ uneven_run.V = 3 ∧
      uneven_run.delta_t = 1 := by
    simp only [uneven_run, zvs.read_parameters, zvs.configure, h4, rat_sqrt_four]
    norm_num [Libm.rat]
  show (uneven_run.step Libm.rat SimState.init).I1 = 3 / 2
  rw [step_init_I1, hf.1, hf.2.1, hf.2.2.1, hf.2.2.2]
  norm_num

/-- The parameter set `small_run` has positive component values, period and slope, and its
switch is configured from them. -/
theorem small_run_valid :
    0 < small_run.L1 ∧ 0 < small_run.L2 ∧ 0 < small_run.L4 ∧ 0 < small_run.C ∧
    0 < small_run.T ∧ 0 < small_run.slope_R ∧
    small_run.resist = classR.configure small_run.T small_run.slope_R small_run.R := by
  have h4 : (4.0 * 1 * 1 : ℚ) = 4 := by norm_num
  have hf : small_run.L1 = 1 ∧ small_run.L2 = 1 ∧ small_run.L4 = 1 ∧ small_run.C = 1 ∧
      small_run.T = 1420 / 113 ∧ small_run.slope_R = 1 := by
    simp only [small_run, zvs.read_parameters, zvs.configure, h4, rat_sqrt_four]
    norm_num [Libm.rat]
  obtain ⟨f1, f2, f3, f4, f5, f6⟩ := hf
  exact ⟨by rw [f1]; norm_num, by rw [f2]; norm_num, by rw [f3]; norm_num,
    by rw [f4]; norm_num, by rw [f5]; norm_num, by rw [f6]; norm_num, rfl⟩

/-- C18 (as amended): for every parameter set with `L1, L2, L4, C > 0`, `T > 0` and
`slope_R > 0`, whose switch is configured from `T`, `slope_R` and `R` (so that no
denominator is zero), the integration is linear in the source voltage: the state on entry to
every step (and so after every number of steps, ignoring the divergence `break`) of the
circuit with source voltage `k*V` is `k` times that of the circuit with source voltage `V`.
With `V = 0` all four currents are zero at every step and every recorded sample is zero; a
run that ends returns `convergence_error = false`, and with `delta_t > 0` and enough fuel the
run ends.  Zero is taken to be finite. -/
theorem simulate_linear (m : Libm α) (c : zvs α) (_hL1 : 0 < c.L1) (_hL2 : 0 < c.L2)
    (_hL4 : 0 < c.L4) (_hC : 0 < c.C) (_hT : 0 < c.T) (_hs : 0 < c.slope_R)
    (_hres : c.resist = classR.configure c.T c.slope_R c.R) :
    (∀ (k : α) (n : ℕ),
      SimState.scaled k (c.loop_head m SimState.init n)
        (({ c with V := k * c.V } : zvs α).loop_head m SimState.init n)) ∧
    (c.V = 0 →
      (∀ n : ℕ,
        (c.step m (c.loop_head m SimState.init n)).I1 = 0 ∧
        (c.step m (c.loop_head m SimState.init n)).I2 = 0 ∧
        (c.step m (c.loop_head m SimState.init n)).I3 = 0 ∧
        (c.step m (c.loop_head m SimState.init n)).I4 = 0 ∧
        (c.step m (c.loop_head m SimState.init n)).int_I3 = 0) ∧
      (m.isfinite 0 = true →
        ∀ (fuel : ℕ) (r : SimState α) (trace : List (SimState α × SimState α)),
          c.simulate m fuel = some (r, trace) →
          r.convergence_error = false ∧
          (∀ p ∈ r.Vsec_dat, p.2 = 0) ∧ (∀ p ∈ r.VC_dat, p.2 = 0) ∧
          (∀ p ∈ r.IL2_dat, p.2 = 0) ∧ (∀ p ∈ r.ISource_dat, p.2 = 0) ∧
          (∀ p ∈ r.IC_dat, p.2 = 0)) ∧
      (m.isfinite 0 = true → 0 < c.delta_t →
        ∀ fuel : ℕ, ⌈c.t_total / c.delta_t⌉₊ < fuel →
          ∃ (r : SimState α) (trace : List (SimState α × SimState α)),
            c.simulate m fuel = some (r, trace) ∧ r.convergence_error = false)) := by
  refine ⟨fun k n => loop_head_scaled m c k n, fun hV => ?_⟩
  have hstep : ∀ n : ℕ, (c.step m (c.loop_head m SimState.init n)).at_rest := fun n =>
    record_at_rest c _ (algorithm_at_rest m c _ hV (loop_head_at_rest m c hV n))
  have hret : m.isfinite 0 = true →
      ∀ (fuel : ℕ) (r : SimState α) (trace : List (SimState α × SimState α)),
        c.simulate m fuel = some (r, trace) →
        r.convergence_error = false ∧
        (∀ p ∈ r.Vsec_dat, p.2 = 0) ∧ (∀ p ∈ r.VC_dat, p.2 = 0) ∧
        (∀ p ∈ r.IL2_dat, p.2 = 0) ∧ (∀ p ∈ r.ISource_dat, p.2 = 0) ∧
        (∀ p ∈ r.IC_dat, p.2 = 0) := by
    intro h0 fuel r trace hr
    obtain ⟨n, -, -, -, h4⟩ := simulate_loop_some m c fuel SimState.init [] r trace hr
    rcases h4 with ⟨e, -, -⟩ | ⟨j, -, hd, -⟩
    · rw [e]
      exact ⟨by rw [loop_head_convergence_error]; rfl, loop_head_files_zero m c hV n⟩
    · rw [(hstep j).1, diverged_zero m h0] at hd
      exact absurd hd (by simp)
  refine ⟨fun n => ?_, hret, fun h0 hdt fuel hfuel => ?_⟩
  · obtain ⟨r1, r2, r3, r4, -, -, -, -, -, -, -, -, r13⟩ := hstep n
    exact ⟨r1, r2, r3, r4, r13⟩
  · obtain ⟨n, r, hr, -⟩ := simulate_run m c hdt fuel hfuel
    exact ⟨r, _, hr, (hret h0 fuel r _ hr).1⟩

/-- Witness of C18 (as amended): `uneven_run` (source voltage 3) with its source voltage
doubled, on entry to the second step, where `I1 = 3/2`, and to the fourth; and the run of
`small_run`, whose source voltage is zero. -/
theorem simulate_linear_witness :
    (0 < uneven_run.L1 ∧ 0 < uneven_run.L2 ∧ 0 < uneven_run.L4 ∧ 0 < uneven_run.C ∧
      0 < uneven_run.T ∧ 0 < uneven_run.slope_R ∧
      uneven_run.resist = classR.configure uneven_run.T uneven_run.slope_R uneven_run.R) ∧
    (uneven_run.loop_head Libm.rat SimState.init 1).I1 = 3 / 2 ∧
    SimState.scaled 2 (uneven_run.loop_head Libm.rat SimState.init 1)
      (({ uneven_run with V := 2 * uneven_run.V } : zvs ℚ).loop_head Libm.rat SimState.init 1) ∧
    SimState.scaled 2 (uneven_run.loop_head Libm.rat SimState.init 3)
      (({ uneven_run with V := 2 * uneven_run.V } : zvs ℚ).loop_head Libm.rat SimState.init 3) ∧
    (0 < small_run.L1 ∧ 0 < small_run.L2 ∧ 0 < small_run.L4 ∧ 0 < small_run.C ∧
      0 < small_run.T ∧ 0 < small_run.slope_R ∧
      small_run.resist = classR.configure small_run.T small_run.slope_R small_run.R) ∧
    small_run.V = 0 ∧ Libm.rat.isfinite 0 = true ∧ 0 < small_run.delta_t ∧
    ⌈small_run.t_total / small_run.delta_t⌉₊ < 5 ∧
    ∃ (r : SimState ℚ) (trace : List (SimState ℚ × SimState ℚ)),
      small_run.simulate Libm.rat 5 = some (r, trace) ∧ r.convergence_error = false :=
  ⟨uneven_run_valid, uneven_run_I1,
    (simulate_linear Libm.rat uneven_run uneven_run_valid.1 uneven_run_valid.2.1
      uneven_run_valid.2.2.1 uneven_run_valid.2.2.2.1 uneven_run_valid.2.2.2.2.1
      uneven_run_valid.2.2.2.2.2.1 uneven_run_valid.2.2.2.2.2.2).1 2 1,
    (simulate_linear Libm.rat uneven_run uneven_run_valid.1 uneven_run_valid.2.1
      uneven_run_valid.2.2.1 uneven_run_valid.2.2.2.1 uneven_run_valid.2.2.2.2.1
      uneven_run_valid.2.2.2.2.2.1 uneven_run_valid.2.2.2.2.2.2).1 2 3,
    small_run_valid, small_run_fields.2.2.1, rfl, small_run_delta_t_pos, small_run_fuel,
    ((simulate_linear Libm.rat small_run small_run_valid.1 small_run_valid.2.1
      small_run_valid.2.2.1 small_run_valid.2.2.2.1 small_run_valid.2.2.2.2.1
      small_run_valid.2.2.2.2.2.1 small_run_valid.2.2.2.2.2.2).2 small_run_fields.2.2.1).2.2 rfl
      small_run_delta_t_pos 5 small_run_fuel⟩

end Integration

end ZVS
